import Mathlib

/-
Verification of the KaibanJS workflow-orchestration core.

This development shallowly embeds the team store (src/stores/teamStore.js) and
the workflow execution strategies (the hierarchical strategy and
src/managers/executionStrategies/sequentialExecutionStrategy.js, both built on
src/managers/executionStrategies/workflowExecutionStrategy.js), and proves or
refutes the specified properties about them.

Modelling conventions:
- JavaScript objects become Lean structures; optional / possibly-undefined
  fields become `Option`.
- Fields that `getCleanedState` may replace by the sentinel string
  "[REDACTED]" and that are not strings in the source (timestamps, durations)
  are modelled with the `Redactable` sum type; string fields keep the literal
  sentinel string.
- Store mutations (`set(...)`) become pure functions `TeamState → TeamState`.
- `Date.now()` is passed in explicitly as a `now : Nat` argument.
- `workOnTask`'s direct assignment `task.status = TASK_STATUS_enum.DOING` on
  the task object handed to the strategy is modelled as a store status update
  for that task's id (the object is an element of the store's task array when
  the strategy dispatches it).
-/

namespace KaibanJS

/-- Task status lexicon, from TASK_STATUS_enum in src/utils/enums. -/
inductive TaskStatus where
  | TODO
  | DOING
  | BLOCKED
  | REVISE
  | DONE
  | AWAITING_VALIDATION
  | VALIDATED
  | ABORTED
  | PAUSED
  | RESUMED
deriving DecidableEq, Repr

/-- Workflow status lexicon, from WORKFLOW_STATUS_enum in src/utils/enums. -/
inductive WorkflowStatus where
  | INITIAL
  | RUNNING
  | PAUSED
  | STOPPING
  | STOPPED
  | ERRORED
  | BLOCKED
  | FINISHED
deriving DecidableEq, Repr

/-- Feedback status lexicon, from FEEDBACK_STATUS_enum in src/utils/enums. -/
inductive FeedbackStatus where
  | PENDING
  | PROCESSED
deriving DecidableEq, Repr

/-- Log kinds used by the team store (the `logType` string field). -/
inductive LogType where
  | WorkflowStatusUpdate
  | TaskStatusUpdate
  | AgentStatusUpdate
deriving DecidableEq, Repr

/-- A non-string field value that `getCleanedState` may replace with the
sentinel string "[REDACTED]"; `redacted` stands for the sentinel. -/
inductive Redactable (α : Type) where
  | val (a : α)
  | redacted
deriving DecidableEq, Repr

/-- Environment / inputs mappings (JS plain objects of string values). -/
abbrev Env := List (String × String)

/-- LLM configuration carried by agents (only the fields the claims touch). -/
structure LLMConfig where
  model : String
  apiKey : String
deriving DecidableEq, Repr

/-- The inner agent instance nested in a store agent (agent.agentInstance). -/
structure AgentInstance where
  id : String
  env : Redactable Env
  llmConfig : Option LLMConfig
deriving DecidableEq, Repr

/-- An agent as held by the team store. -/
structure Agent where
  id : String
  name : String
  status : String
  env : Redactable Env
  llmConfig : Option LLMConfig
  agentInstance : Option AgentInstance
deriving DecidableEq, Repr

/-- A task result: a string, or a JS object (modelled as a flat mapping of
string keys to string values, serialized by `jsonStringifyObj`). -/
inductive TaskResult where
  | str (s : String)
  | obj (fields : List (String × String))
deriving DecidableEq, Repr

/-- A feedback record appended by provideFeedback. -/
structure Feedback where
  content : String
  status : FeedbackStatus
  timestamp : Redactable Nat
deriving DecidableEq, Repr

/-- A task as held by the team store (the fields the claims touch). The JS
object also carries hooks and a store handle, which the embedding omits. -/
structure Task where
  id : String
  description : String
  dependsOn : Option (List String)
  status : TaskStatus
  agent : Option Agent
  result : Option TaskResult
  feedbackHistory : List Feedback
  isDeliverable : Bool
  allowParallelExecution : Bool
  referenceId : Option String
  duration : Redactable (Option Nat)
  startTime : Redactable (Option Nat)
  endTime : Redactable (Option Nat)
deriving DecidableEq, Repr

/-- Log metadata (the fields the store writes and getCleanedState cleans). -/
structure Metadata where
  message : Option String
  inputs : Option Env
  result : Option TaskResult
  feedback : Option Feedback
  duration : Redactable (Option Nat)
  startTime : Redactable (Option Nat)
  endTime : Redactable (Option Nat)
deriving DecidableEq, Repr

/-- Metadata with no fields set (the `{}` object literal). -/
def emptyMetadata : Metadata :=
  { message := none, inputs := none, result := none, feedback := none
    duration := .val none, startTime := .val none, endTime := .val none }

/-- A workflow log entry. Entries written without prepareNewLog lack the
taskStatus / agentStatus / agentName / taskTitle fields (modelled `none`);
prepareNewLog entries lack workflowStatus. -/
structure WorkflowLog where
  timestamp : Redactable Nat
  task : Option Task
  agent : Option Agent
  agentName : Option String
  taskTitle : Option String
  logDescription : String
  taskStatus : Option TaskStatus
  agentStatus : Option String
  workflowStatus : Option WorkflowStatus
  metadata : Metadata
  logType : LogType
deriving DecidableEq, Repr

/-- The team store state created by createTeamStore (the data fields; the
action closures, the strategy object and the task queue handle live outside
the persisted state and are not part of the snapshot). -/
structure TeamState where
  teamWorkflowStatus : WorkflowStatus
  workflowResult : Option TaskResult
  name : String
  agents : List Agent
  tasks : List Task
  workflowLogs : List WorkflowLog
  inputs : Env
  workflowContext : String
  workflowInternalMemory : Env
  env : Env
  logLevel : Option String
  maxConcurrency : Nat
deriving DecidableEq, Repr

/-- Default of the maxConcurrency field: `initialState.maxConcurrency || 5`
(src/stores/teamStore.js line 74). -/
def defaultMaxConcurrency : Nat := 5

/-- JS Array.prototype.findIndex, with `-1` modelled as `none`. -/
def findIndexOpt {α : Type} (p : α → Bool) : List α → Option Nat
  | [] => none
  | a :: l => if p a then some 0 else (findIndexOpt p l).map (· + 1)

/-! ### Execution strategies

The hierarchical strategy (HierarchyExecutionStrategy) and the sequential
strategy (SequentialExecutionStrategy), both store-bound subclasses of
src/managers/executionStrategies/workflowExecutionStrategy.js. Their effect on
the stored task list is embedded; queueing and the agent loop are outside the
store state. -/

/-- Body of teamStore.updateTaskStatus restricted to the task array:
`state.tasks.map(task => task.id === taskId ? { ...task, status } : task)`. -/
def updateTaskStatusInList (tasks : List Task) (taskId : String)
    (status : TaskStatus) : List Task :=
  tasks.map (fun task => if task.id = taskId then { task with status := status } else task)

/-- HierarchyExecutionStrategy.getTaskDependencies: the tasks of `allTasks`
whose id occurs in `task.dependsOn` (empty when dependsOn is absent/empty). -/
def getTaskDependencies (task : Task) (allTasks : List Task) : List Task :=
  match task.dependsOn with
  | none => []
  | some deps => if deps.isEmpty then [] else allTasks.filter (fun t => deps.contains t.id)

/-- HierarchyExecutionStrategy.getAllTasksDependingOn: the tasks whose
dependsOn list contains `task.id` (the DIRECT dependents of `task`). -/
def getAllTasksDependingOn (task : Task) (allTasks : List Task) : List Task :=
  allTasks.filter (fun t =>
    match t.dependsOn with
    | some deps => deps.contains task.id
    | none => false)

/-- The filter predicate shared by HierarchyExecutionStrategy.getReadyTasks
and the executableTasks filter inside its execute(): the task is TODO and its
resolved dependencies are all DONE (or there are none). -/
def hierarchyReadyPred (allTasks : List Task) (task : Task) : Bool :=
  task.status == TaskStatus.TODO &&
    (let deps := getTaskDependencies task allTasks
     deps.isEmpty || deps.all (fun dep => dep.status == TaskStatus.DONE))

/-- HierarchyExecutionStrategy.getReadyTasks. -/
def getReadyTasks (allTasks : List Task) : List Task :=
  allTasks.filter (hierarchyReadyPred allTasks)

/-- The executableTasks filter inside HierarchyExecutionStrategy.execute
(lines 190-199); it repeats the getReadyTasks predicate verbatim. -/
def hierarchyExecutable (allTasks : List Task) : List Task :=
  allTasks.filter (hierarchyReadyPred allTasks)

/-- One iteration of the changed-task switch in
HierarchyExecutionStrategy.execute: on DOING the task is handed to
`_executeTask` (workOnTask assigns status DOING); on REVISE every direct
dependent is updated to BLOCKED through the store; other statuses fall
through the switch. -/
def processChangedTask (allTasks store : List Task) (changedTask : Task) : List Task :=
  match changedTask.status with
  | TaskStatus.DOING => updateTaskStatusInList store changedTask.id TaskStatus.DOING
  | TaskStatus.REVISE =>
      (getAllTasksDependingOn changedTask allTasks).foldl
        (fun s dep => updateTaskStatusInList s dep.id TaskStatus.BLOCKED) store
  | _ => store

/-- Effect of HierarchyExecutionStrategy.execute(changedTasks, allTasks) on
the stored task list: first the changed-task switch, then every executable
task (computed from the `allTasks` snapshot passed in) is dispatched with
`_executeTask`, whose workOnTask assigns it status DOING. -/
def hierarchyExecute (changedTasks allTasks : List Task) : List Task :=
  let storeAfterChanged := changedTasks.foldl (processChangedTask allTasks) allTasks
  (hierarchyExecutable allTasks).foldl
    (fun store task => updateTaskStatusInList store task.id TaskStatus.DOING) storeAfterChanged

/-- The portion of `allTasks` strictly after the revised task, per the
sequential strategy's `for (let i = taskIndex + 1; ...)` loop; when findIndex
returns -1 the loop body covers every index. -/
def seqTail (allTasks : List Task) (changedTask : Task) : List Task :=
  match findIndexOpt (fun t => t.id == changedTask.id) allTasks with
  | some i => allTasks.drop (i + 1)
  | none => allTasks

/-- One iteration of the changed-task switch in
SequentialExecutionStrategy.execute: DOING pushes the task to the strategy
queue (workOnTask assigns status DOING); REVISE moves all subsequent tasks to
TODO and then the revised task to DOING; DONE promotes the first TODO task of
the current store to DOING. -/
def processSeqChangedTask (allTasks store : List Task) (changedTask : Task) : List Task :=
  match changedTask.status with
  | TaskStatus.DOING => updateTaskStatusInList store changedTask.id TaskStatus.DOING
  | TaskStatus.REVISE =>
      let afterTail := (seqTail allTasks changedTask).foldl
        (fun s t => updateTaskStatusInList s t.id TaskStatus.TODO) store
      updateTaskStatusInList afterTail changedTask.id TaskStatus.DOING
  | TaskStatus.DONE =>
      match store.find? (fun t => t.status == TaskStatus.TODO) with
      | some nextTask => updateTaskStatusInList store nextTask.id TaskStatus.DOING
      | none => store
  | _ => store

/-- Effect of SequentialExecutionStrategy.execute(changedTasks, allTasks) on
the stored task list. -/
def sequentialExecute (changedTasks allTasks store : List Task) : List Task :=
  changedTasks.foldl (processSeqChangedTask allTasks) store

/-! ### Status-update machinery

Every store effect of the strategies is a composition of per-id status
updates; the lemmas below reduce such compositions to a per-task fold. -/

/-- Apply one (id, status) update to one task. -/
def applyStatusUpd (t : Task) (p : String × TaskStatus) : Task :=
  if t.id = p.1 then { t with status := p.2 } else t

/-- The status a task with the given id and starting status has after a list
of (id, status) updates: the last matching update wins. -/
def statusAfter (id : String) (st : TaskStatus) (ps : List (String × TaskStatus)) : TaskStatus :=
  ps.foldl (fun s p => if id = p.1 then p.2 else s) st

/-- The (id, status) updates one changed task contributes in the hierarchical
changed-task switch. -/
def changedPairs (allTasks : List Task) (changedTask : Task) : List (String × TaskStatus) :=
  match changedTask.status with
  | TaskStatus.DOING => [(changedTask.id, TaskStatus.DOING)]
  | TaskStatus.REVISE =>
      (getAllTasksDependingOn changedTask allTasks).map (fun d => (d.id, TaskStatus.BLOCKED))
  | _ => []

/-- The full list of (id, status) updates a hierarchical execute tick applies:
the changed-task switch updates followed by a DOING update for each
executable task. -/
def hierarchyPairs (changedTasks allTasks : List Task) : List (String × TaskStatus) :=
  (changedTasks.map (changedPairs allTasks)).flatten
    ++ (hierarchyExecutable allTasks).map (fun t => (t.id, TaskStatus.DOING))

/-- Transitive dependency through chains of dependsOn references. -/
inductive DependsTransitivelyOn (allTasks : List Task) : Task → Task → Prop where
  | direct {t u : Task} (h : (t.dependsOn.getD []).contains u.id = true) :
      DependsTransitivelyOn allTasks t u
  | step {t m u : Task} (hm : m ∈ allTasks) (h : (t.dependsOn.getD []).contains m.id = true)
      (rest : DependsTransitivelyOn allTasks m u) : DependsTransitivelyOn allTasks t u

/-- A task with the given id, dependencies and status and every other field
defaulted, for concrete scenarios. -/
def mkTask (id description : String) (dependsOn : Option (List String))
    (status : TaskStatus) : Task :=
  { id := id, description := description, dependsOn := dependsOn, status := status
    agent := none, result := none, feedbackHistory := [], isDeliverable := false
    allowParallelExecution := false, referenceId := none
    duration := .val none, startTime := .val none, endTime := .val none }

/-- Scenario for claim C1: the chain A ← B ← C, all previously DONE, after
feedback moved A to REVISE. -/
def c1A : Task := mkTask "A" "extract" none TaskStatus.REVISE

def c1B : Task := mkTask "B" "summarize" (some ["A"]) TaskStatus.DONE

def c1C : Task := mkTask "C" "publish" (some ["B"]) TaskStatus.DONE

def c1Tasks : List Task := [c1A, c1B, c1C]

/-- Scenario for claim C2: one DONE root and six independent TODO tasks that
all depend only on it, against the default maxConcurrency of 5. -/
def c2Root : Task := mkTask "X" "seed" none TaskStatus.DONE

def c2Follower (id : String) : Task := mkTask id "work" (some ["X"]) TaskStatus.TODO

def c2Tasks : List Task :=
  [c2Root, c2Follower "T1", c2Follower "T2", c2Follower "T3", c2Follower "T4",
    c2Follower "T5", c2Follower "T6"]

/-- Scenario for claim C5: task B is TODO and depends on the DONE task A. -/
def c5A : Task := mkTask "A" "extract" none TaskStatus.DONE

def c5B : Task := mkTask "B" "summarize" (some ["A"]) TaskStatus.TODO

/-! ### The sequential REVISE ripple (claim C6) -/

/-- The (id, status) updates a sequential REVISE change applies: TODO for
every task after the revised one, then DOING for the revised task. -/
def seqRevisePairs (allTasks : List Task) (changedTask : Task) : List (String × TaskStatus) :=
  (seqTail allTasks changedTask).map (fun t => (t.id, TaskStatus.TODO))
    ++ [(changedTask.id, TaskStatus.DOING)]

/-- Scenario for claim C6: three tasks in sequence, the middle one revised. -/
def c6A : Task := mkTask "A" "extract" none TaskStatus.DONE

def c6B : Task := mkTask "B" "summarize" none TaskStatus.REVISE

def c6C : Task := mkTask "C" "publish" none TaskStatus.DONE

def c6Tasks : List Task := [c6A, c6B, c6C]

/-! ### Team store operations (src/stores/teamStore.js) -/

/-- Modelled from the spec: the getTaskTitleForLogs helper lives in
src/utils/tasks, which is not part of this repository snapshot; it only
produces the human-readable title interpolated into log description strings,
so it is modelled as the task description. -/
def getTaskTitleForLogs (task : Task) : String := task.description

/-- teamStore.prepareNewLog: build a log entry stamped with the current time;
when the agent or task is absent the JS code stores the strings
"Unknown Agent" / "Untitled Task" / "Unknown", modelled here as the default
branches and `none` for the absent status. -/
def prepareNewLog (agent : Option Agent) (task : Option Task) (logDescription : String)
    (metadata : Metadata) (logType : LogType) (now : Nat) : WorkflowLog :=
  { timestamp := .val now
    task := task
    agent := agent
    agentName := some (match agent with | some a => a.name | none => "Unknown Agent")
    taskTitle := some (match task with | some t => getTaskTitleForLogs t | none => "Untitled Task")
    logDescription := logDescription
    taskStatus := task.map Task.status
    agentStatus := agent.map Agent.status
    workflowStatus := none
    metadata := metadata
    logType := logType }

/-- teamStore.updateTaskStatus (lines 118-130): a single set() that maps the
task array, replacing the status of the tasks whose id matches; nothing else
in the state is touched and no log entry is written. -/
def updateTaskStatus (state : TeamState) (taskId : String) (status : TaskStatus) : TeamState :=
  { state with tasks := updateTaskStatusInList state.tasks taskId status }

/-- teamStore.updateStatusOfMultipleTasks (lines 139-150): a single set()
that maps the task array, replacing the status of the tasks whose id is in
taskIds; nothing else in the state is touched and no log entry is written. -/
def updateStatusOfMultipleTasks (state : TeamState) (taskIds : List String)
    (status : TaskStatus) : TeamState :=
  { state with
    tasks := state.tasks.map (fun task =>
      if taskIds.contains task.id then { task with status := status } else task) }

/-- teamStore.resetWorkflowStateAction: every task back to TODO, agents back
to the INITIAL status with fresh histories, logs / context / result / memory
cleared, workflow status INITIAL. -/
def resetWorkflowState (state : TeamState) : TeamState :=
  { state with
    tasks := state.tasks.map (fun task => { task with status := TaskStatus.TODO })
    agents := state.agents.map (fun agent => { agent with status := "INITIAL" })
    workflowLogs := []
    workflowContext := ""
    workflowResult := none
    workflowInternalMemory := []
    teamWorkflowStatus := WorkflowStatus.INITIAL }

/-- teamStore.startWorkflow (lines 164-205): unconditionally reset the state,
store the inputs if given, append the initiation log and mark the workflow
RUNNING. The strategy object and the task queue it then creates, and the
strategy.startExecution call, live outside the store state. There is no guard
on the current teamWorkflowStatus. -/
def startWorkflow (state : TeamState) (inputs : Option Env) (now : Nat) : TeamState :=
  let reset := resetWorkflowState state
  let withInputs := match inputs with
    | some i => { reset with inputs := i }
    | none => reset
  let initialLog : WorkflowLog :=
    { timestamp := .val now
      task := none
      agent := none
      agentName := none
      taskTitle := none
      logDescription := "Workflow initiated for team *" ++ state.name ++ "*."
      taskStatus := none
      agentStatus := none
      workflowStatus := some WorkflowStatus.RUNNING
      metadata := { emptyMetadata with
        message := some "Workflow has been initialized with input settings."
        inputs := inputs }
      logType := LogType.WorkflowStatusUpdate }
  { withInputs with
    workflowLogs := withInputs.workflowLogs ++ [initialLog]
    teamWorkflowStatus := WorkflowStatus.RUNNING }

/-- teamStore.provideFeedback: find the task by id (return unchanged when it
is missing), append a PENDING feedback, force the task to REVISE, append the
workflow log and the task log, and mark the workflow RUNNING. -/
def provideFeedback (state : TeamState) (taskId feedbackContent : String) (now : Nat) :
    TeamState :=
  match state.tasks.find? (fun t => t.id == taskId) with
  | none => state
  | some task =>
      let newFeedback : Feedback :=
        { content := feedbackContent, status := FeedbackStatus.PENDING, timestamp := .val now }
      let newWorkflowLog : WorkflowLog :=
        { timestamp := .val now
          task := some task
          agent := task.agent
          agentName := none
          taskTitle := none
          logDescription := "Workflow running again due to feedback on task."
          taskStatus := none
          agentStatus := none
          workflowStatus := some WorkflowStatus.RUNNING
          metadata := { emptyMetadata with feedback := some newFeedback }
          logType := LogType.WorkflowStatusUpdate }
      let updatedTask : Task :=
        { task with
          feedbackHistory := task.feedbackHistory ++ [newFeedback]
          status := TaskStatus.REVISE }
      let newTaskLog := prepareNewLog updatedTask.agent (some updatedTask)
        ("Task with feedback: " ++ getTaskTitleForLogs updatedTask ++ ".")
        { emptyMetadata with feedback := some newFeedback } LogType.TaskStatusUpdate now
      { state with
        teamWorkflowStatus := WorkflowStatus.RUNNING
        workflowLogs := state.workflowLogs ++ [newWorkflowLog, newTaskLog]
        tasks := state.tasks.map (fun t => if t.id = taskId then updatedTask else t) }

/-- The WorkflowStatusUpdate entry validateTask appends. -/
def validatedWorkflowLog (updatedTask : Task) (now : Nat) : WorkflowLog :=
  { timestamp := .val now
    task := some updatedTask
    agent := updatedTask.agent
    agentName := none
    taskTitle := none
    logDescription := "Workflow running cause a task was validated."
    taskStatus := none
    agentStatus := none
    workflowStatus := some WorkflowStatus.RUNNING
    metadata := emptyMetadata
    logType := LogType.WorkflowStatusUpdate }

/-- The TaskStatusUpdate entry validateTask appends via prepareNewLog. -/
def validatedTaskLog (updatedTask : Task) (now : Nat) : WorkflowLog :=
  prepareNewLog updatedTask.agent (some updatedTask)
    ("Task validated: " ++ getTaskTitleForLogs updatedTask ++ ".") emptyMetadata
    LogType.TaskStatusUpdate now

/-- teamStore.validateTask (lines 568-620): returns null (modelled as the
unchanged state and `none`) when the task is missing or is not
AWAITING_VALIDATION; otherwise sets the task to VALIDATED, appends the two
log entries, marks the workflow RUNNING and invokes handleTaskCompleted with
the updated task and its result. handleTaskCompleted lives in
src/stores/taskStore.js, which is not part of this snapshot; the invocation
is modelled as the second component of the returned pair. -/
def validateTask (state : TeamState) (taskId : String) (now : Nat) :
    TeamState × Option Task :=
  match state.tasks.find? (fun t => t.id == taskId) with
  | none => (state, none)
  | some task =>
      if task.status == TaskStatus.AWAITING_VALIDATION then
        let updatedTask := { task with status := TaskStatus.VALIDATED }
        ({ state with
            tasks := state.tasks.map (fun t => if t.id = taskId then updatedTask else t)
            workflowLogs := state.workflowLogs
              ++ [validatedWorkflowLog updatedTask now, validatedTaskLog updatedTask now]
            teamWorkflowStatus := WorkflowStatus.RUNNING },
          some updatedTask)
      else (state, none)

/-- A team state with the given tasks, logs and workflow status and every
other field defaulted, for concrete scenarios. -/
def mkState (tasks : List Task) (logs : List WorkflowLog) (ws : WorkflowStatus) : TeamState :=
  { teamWorkflowStatus := ws, workflowResult := none, name := "team", agents := []
    tasks := tasks, workflowLogs := logs, inputs := [], workflowContext := ""
    workflowInternalMemory := [], env := [], logLevel := none, maxConcurrency := 5 }

/-- Scenario for claim C3: one-task store with an empty log list. -/
def c3State : TeamState := mkState [mkTask "A" "extract" none TaskStatus.TODO] [] WorkflowStatus.RUNNING

/-- A RUNNING log of the kind the first start appends, for claim C4. -/
def c4Log : WorkflowLog :=
  { timestamp := .val 1, task := none, agent := none, agentName := none, taskTitle := none
    logDescription := "Workflow initiated for team *team*.", taskStatus := none
    agentStatus := none, workflowStatus := some WorkflowStatus.RUNNING
    metadata := emptyMetadata, logType := LogType.WorkflowStatusUpdate }

/-- Scenario for claim C4: a RUNNING workflow with one DONE task and the log
entry of the first start. -/
def c4State : TeamState :=
  mkState [mkTask "A" "extract" none TaskStatus.DONE] [c4Log] WorkflowStatus.RUNNING

/-- Scenario for claim C7: one task awaiting validation. -/
def c7Task : Task := mkTask "A" "extract" none TaskStatus.AWAITING_VALIDATION

def c7State : TeamState := mkState [c7Task] [] WorkflowStatus.RUNNING

/-- Scenario for claim C10: a store whose only task id is "A". -/
def c10State : TeamState := mkState [mkTask "A" "extract" none TaskStatus.DONE] [] WorkflowStatus.RUNNING

/-! ### The cleaned snapshot (claim C9): teamStore.getCleanedState -/

/-- The sentinel string written over redacted string fields. -/
def redactedSentinel : String := "[REDACTED]"

/-- Redact the apiKey inside an llmConfig; the source substitutes an empty
object when llmConfig is undefined, which carries no apiKey field. -/
def cleanLLMConfig : Option LLMConfig → Option LLMConfig
  | some cfg => some { cfg with apiKey := redactedSentinel }
  | none => none

/-- Clean the nested agentInstance: id, env and llmConfig.apiKey redacted;
the source substitutes an empty object when agentInstance is undefined. -/
def cleanAgentInstance : Option AgentInstance → Option AgentInstance
  | some inst => some
      { inst with
        id := redactedSentinel
        env := Redactable.redacted
        llmConfig := cleanLLMConfig inst.llmConfig }
  | none => none

/-- getCleanedState's cleanAgent: id, env, llmConfig.apiKey redacted at the
root level and inside agentInstance. -/
def cleanAgent (agent : Agent) : Agent :=
  { agent with
    id := redactedSentinel
    env := Redactable.redacted
    llmConfig := cleanLLMConfig agent.llmConfig
    agentInstance := cleanAgentInstance agent.agentInstance }

/-- getCleanedState's cleanTask: id redacted, the nested agent cleaned,
duration / endTime / startTime redacted, feedback timestamps redacted. The
source additionally drops the hooks / workflowInternalMemory keys and omits
allowParallelExecution and referenceId when falsy, which a fixed record
cannot express. -/
def cleanTask (task : Task) : Task :=
  { task with
    id := redactedSentinel
    agent := task.agent.map cleanAgent
    duration := Redactable.redacted
    endTime := Redactable.redacted
    startTime := Redactable.redacted
    feedbackHistory := task.feedbackHistory.map (fun f => { f with timestamp := Redactable.redacted }) }

/-- getCleanedState's cleanMetadata: duration / endTime / startTime redacted
and the feedback timestamp redacted (an empty object when absent). -/
def cleanMetadata (m : Metadata) : Metadata :=
  { m with
    duration := Redactable.redacted
    endTime := Redactable.redacted
    startTime := Redactable.redacted
    feedback := match m.feedback with
      | some f => some { f with timestamp := Redactable.redacted }
      | none => none }

/-- getCleanedState's per-log cleaning: nested agent and task cleaned,
timestamp redacted, metadata cleaned. -/
def cleanLog (log : WorkflowLog) : WorkflowLog :=
  { log with
    agent := log.agent.map cleanAgent
    task := log.task.map cleanTask
    timestamp := Redactable.redacted
    metadata := cleanMetadata log.metadata }

/-- The snapshot getCleanedState returns: exactly the fields
teamWorkflowStatus, workflowResult, name, agents, tasks, workflowLogs,
inputs, workflowContext, logLevel. -/
structure CleanedState where
  teamWorkflowStatus : WorkflowStatus
  workflowResult : Option TaskResult
  name : String
  agents : List Agent
  tasks : List Task
  workflowLogs : List WorkflowLog
  inputs : Env
  workflowContext : String
  logLevel : Option String
deriving DecidableEq, Repr

/-- teamStore.getCleanedState (lines 752-872). -/
def getCleanedState (state : TeamState) : CleanedState :=
  { teamWorkflowStatus := state.teamWorkflowStatus
    workflowResult := state.workflowResult
    name := state.name
    agents := state.agents.map cleanAgent
    tasks := state.tasks.map cleanTask
    workflowLogs := state.workflowLogs.map cleanLog
    inputs := state.inputs
    workflowContext := state.workflowContext
    logLevel := state.logLevel }

/-- An agent is clean when its id and env, and those of its agentInstance,
are the sentinel, and every present llmConfig has the sentinel apiKey. -/
def AgentClean (a : Agent) : Prop :=
  a.id = redactedSentinel ∧ a.env = Redactable.redacted ∧
    (∀ cfg ∈ a.llmConfig, cfg.apiKey = redactedSentinel) ∧
    (∀ inst ∈ a.agentInstance,
      inst.id = redactedSentinel ∧ inst.env = Redactable.redacted ∧
        ∀ cfg ∈ inst.llmConfig, cfg.apiKey = redactedSentinel)

/-- A task is clean when its id and every time-dependent field (duration,
startTime, endTime, feedback timestamps) are redacted, and its nested agent
is clean. -/
def TaskClean (t : Task) : Prop :=
  t.id = redactedSentinel ∧ t.duration = Redactable.redacted ∧
    t.startTime = Redactable.redacted ∧ t.endTime = Redactable.redacted ∧
    (∀ f ∈ t.feedbackHistory, f.timestamp = Redactable.redacted) ∧
    (∀ a ∈ t.agent, AgentClean a)

/-- A log is clean when its timestamp and its metadata's time-dependent
fields are redacted and its nested agent and task are clean. -/
def LogClean (log : WorkflowLog) : Prop :=
  log.timestamp = Redactable.redacted ∧
    log.metadata.duration = Redactable.redacted ∧
    log.metadata.startTime = Redactable.redacted ∧
    log.metadata.endTime = Redactable.redacted ∧
    (∀ f ∈ log.metadata.feedback, f.timestamp = Redactable.redacted) ∧
    (∀ a ∈ log.agent, AgentClean a) ∧
    (∀ t ∈ log.task, TaskClean t)

/-! ### Context derivation (claim C8): teamStore.deriveContextFromLogs -/

/-- JSON.stringify on the flat object model of task results (string escaping
elided; literal braces written with their escape codes). -/
def jsonStringifyObj (fields : List (String × String)) : String :=
  "\x7b" ++ String.intercalate ","
      (fields.map (fun kv => "\"" ++ kv.1 ++ "\":\"" ++ kv.2 ++ "\"")) ++ "\x7d"

/-- The result interpolation in deriveContextFromLogs:
`typeof result === 'object' ? JSON.stringify(result) : result`; an absent
result interpolates as the string "undefined". -/
def renderResultValue : Option TaskResult → String
  | some (TaskResult.str s) => s
  | some (TaskResult.obj fields) => jsonStringifyObj fields
  | none => "undefined"

/-- The value deriveContextFromLogs keeps per task id in its taskResults
map: the log task's description, the log's result, and the task's index in
the task list (stored for sorting). -/
structure ContextEntry where
  taskDescription : String
  result : Option TaskResult
  index : Nat
deriving DecidableEq, Repr

/-- JS Map.set on the association list backing the taskResults map: replace
the binding in place when the key exists, else append it. -/
def upsertEntry : List (String × ContextEntry) → String → ContextEntry →
    List (String × ContextEntry)
  | [], key, e => [(key, e)]
  | kv :: m, key, e => if kv.1 == key then (key, e) :: m else kv :: upsertEntry m key e

/-- One log's contribution inside deriveContextFromLogs's loop: a
TaskStatusUpdate log with taskStatus DONE whose task id resolves (findIndex
not -1) to an index before the current task yields the binding stored in the
map; every other log is skipped. The source reads log.task.id, so a DONE
TaskStatusUpdate log carries its task. -/
def qualEntry (tasks : List Task) (currentTaskIndex : Nat) (log : WorkflowLog) :
    Option (String × ContextEntry) :=
  if log.logType == LogType.TaskStatusUpdate
      && log.taskStatus == some TaskStatus.DONE then
    match log.task with
    | some logTask =>
        match findIndexOpt (fun t => t.id == logTask.id) tasks with
        | some taskIndex =>
            if taskIndex < currentTaskIndex then
              some (logTask.id,
                { taskDescription := logTask.description
                  result := log.metadata.result
                  index := taskIndex })
            else none
        | none => none
    | none => none
  else none

/-- One iteration of deriveContextFromLogs's `for (const log of logs)` loop:
store the log's binding in the map when it qualifies, else skip it. -/
def collectStep (tasks : List Task) (currentTaskIndex : Nat)
    (acc : List (String × ContextEntry)) (log : WorkflowLog) :
    List (String × ContextEntry) :=
  match qualEntry tasks currentTaskIndex log with
  | some ke => upsertEntry acc ke.1 ke.2
  | none => acc

/-- The taskResults map after deriveContextFromLogs's loop. -/
def collectTaskResults (tasks : List Task) (currentTaskIndex : Nat)
    (logs : List WorkflowLog) : List (String × ContextEntry) :=
  logs.foldl (collectStep tasks currentTaskIndex) []

/-- The `.sort((a, b) => a.index - b.index)` call: sort the entries by
ascending index (an insertion sort; the indices are distinct, so any sort
produces the same list the JS engine does). -/
def sortByIndex (l : List ContextEntry) : List ContextEntry :=
  l.insertionSort (fun a b => a.index ≤ b.index)

instance : IsTotal ContextEntry (fun a b => a.index ≤ b.index) :=
  ⟨fun a b => Nat.le_total a.index b.index⟩

instance : IsTrans ContextEntry (fun a b => a.index ≤ b.index) :=
  ⟨fun _ _ _ => Nat.le_trans⟩

/-- The string built for one entry of the context. -/
def entryLine (e : ContextEntry) : String :=
  "Task: " ++ e.taskDescription ++ "\nResult: " ++ renderResultValue e.result ++ "\n"

/-- teamStore.deriveContextFromLogs (lines 462-507): empty when the current
task id is not in the task list; otherwise the per-task entries of the most
recent DONE logs of the tasks before the current one, sorted by task order
and joined with a newline separator. -/
def deriveContextFromLogs (state : TeamState) (logs : List WorkflowLog)
    (currentTaskId : String) : String :=
  match findIndexOpt (fun t => t.id == currentTaskId) state.tasks with
  | none => ""
  | some currentTaskIndex =>
      String.intercalate "\n"
        ((sortByIndex
            ((collectTaskResults state.tasks currentTaskIndex logs).map Prod.snd)).map
          entryLine)

/-- A log that marks the task with the given id DONE (the logs
deriveContextFromLogs keeps for that task). -/
def doneLogMatches (taskId : String) (log : WorkflowLog) : Bool :=
  log.logType == LogType.TaskStatusUpdate && log.taskStatus == some TaskStatus.DONE
    && (match log.task with
        | some lt => lt.id == taskId
        | none => false)

/-- The description carried by a log's task snapshot. -/
def logTaskDescription (log : WorkflowLog) : String :=
  match log.task with
  | some lt => lt.description
  | none => ""

/-- Spec-side entry for the task at position i: the entry of the most recent
log marking that task DONE, when one exists. -/
def specEntryAt (tasks : List Task) (logs : List WorkflowLog) (i : Nat) :
    Option ContextEntry :=
  match tasks.get? i with
  | none => none
  | some t =>
      ((logs.filter (doneLogMatches t.id)).getLast?).map
        (fun log =>
          { taskDescription := logTaskDescription log
            result := log.metadata.result
            index := i })

/-- Spec-side context: for every position before the current task, in
declaration order, the entry of its most recent DONE log, joined with a
newline separator. -/
def specContextForTask (state : TeamState) (logs : List WorkflowLog)
    (currentTaskId : String) : String :=
  match findIndexOpt (fun t => t.id == currentTaskId) state.tasks with
  | none => ""
  | some ci =>
      String.intercalate "\n"
        (((List.range ci).filterMap (specEntryAt state.tasks logs)).map entryLine)

/-- Lookup by key in the association list (JS Map.get). -/
def lookupKey (m : List (String × ContextEntry)) (k : String) : Option ContextEntry :=
  (m.find? (fun kv => kv.1 == k)).map Prod.snd

/-- Scenario for claim C8: tasks A and B precede the current task C; the logs
record A and B reaching DONE with string results. -/
def c8A : Task := mkTask "A" "alpha" none TaskStatus.DONE

def c8B : Task := mkTask "B" "beta" none TaskStatus.DONE

def c8C : Task := mkTask "C" "gamma" none TaskStatus.TODO

def c8State : TeamState := mkState [c8A, c8B, c8C] [] WorkflowStatus.RUNNING

/-- A DONE TaskStatusUpdate log for the given task with the given result. -/
def mkDoneLog (t : Task) (res : String) (now : Nat) : WorkflowLog :=
  { timestamp := .val now
    task := some t
    agent := none
    agentName := none
    taskTitle := none
    logDescription := ""
    taskStatus := some TaskStatus.DONE
    agentStatus := none
    workflowStatus := none
    metadata := { emptyMetadata with result := some (TaskResult.str res) }
    logType := LogType.TaskStatusUpdate }

def c8Logs : List WorkflowLog := [mkDoneLog c8A "ra" 1, mkDoneLog c8B "rb" 2]

lemma updateTaskStatusInList_eq_map (tasks : List Task) (taskId : String) (st : TaskStatus) :
    updateTaskStatusInList tasks taskId st = tasks.map (fun t => applyStatusUpd t (taskId, st)) := rfl

lemma foldl_pairs_update (ps : List (String × TaskStatus)) (tasks : List Task) :
    ps.foldl (fun s p => updateTaskStatusInList s p.1 p.2) tasks
      = tasks.map (fun t => ps.foldl applyStatusUpd t) := by
  induction ps generalizing tasks with
  | nil => simp
  | cons p ps ih =>
      show List.foldl (fun s p => updateTaskStatusInList s p.1 p.2)
        (updateTaskStatusInList tasks p.1 p.2) ps = _
      rw [ih, updateTaskStatusInList_eq_map, List.map_map]
      rfl

lemma foldl_tasks_update (f : Task → String × TaskStatus) (L : List Task) (tasks : List Task) :
    L.foldl (fun s d => updateTaskStatusInList s (f d).1 (f d).2) tasks
      = tasks.map (fun t => (L.map f).foldl applyStatusUpd t) := by
  rw [← foldl_pairs_update, List.foldl_map]

lemma foldl_applyStatusUpd_eq (ps : List (String × TaskStatus)) (t : Task) :
    ps.foldl applyStatusUpd t = { t with status := statusAfter t.id t.status ps } := by
  induction ps generalizing t with
  | nil => rfl
  | cons p ps ih =>
      simp only [List.foldl_cons, applyStatusUpd]
      by_cases h : t.id = p.1
      · rw [if_pos h, ih]
        simp [statusAfter, h]
      · rw [if_neg h, ih]
        simp [statusAfter, h]

lemma statusAfter_append (id : String) (st : TaskStatus) (ps qs : List (String × TaskStatus)) :
    statusAfter id st (ps ++ qs) = statusAfter id (statusAfter id st ps) qs := by
  simp [statusAfter, List.foldl_append]

lemma statusAfter_no_match (id : String) (st : TaskStatus) (ps : List (String × TaskStatus))
    (h : ∀ p ∈ ps, id ≠ p.1) : statusAfter id st ps = st := by
  induction ps with
  | nil => rfl
  | cons p ps ih =>
      simp only [statusAfter, List.foldl_cons]
      rw [if_neg (h p (List.mem_cons_self p ps))]
      exact ih (fun q hq => h q (List.mem_cons_of_mem p hq))

lemma statusAfter_const_match (id : String) (st c : TaskStatus) (ps : List (String × TaskStatus)) :
    (∃ p ∈ ps, id = p.1) → (∀ p ∈ ps, id = p.1 → p.2 = c) → statusAfter id st ps = c := by
  induction ps generalizing st with
  | nil =>
      intro hex _
      obtain ⟨p, hp, _⟩ := hex
      exact absurd hp (List.not_mem_nil p)
  | cons p ps ih =>
      intro hex hall
      simp only [statusAfter, List.foldl_cons]
      by_cases h : id = p.1
      · rw [if_pos h]
        by_cases hex2 : ∃ q ∈ ps, id = q.1
        · exact ih p.2 hex2 (fun q hq => hall q (List.mem_cons_of_mem p hq))
        · have hnm : statusAfter id p.2 ps = p.2 := by
            apply statusAfter_no_match
            intro q hq hqe
            exact hex2 ⟨q, hq, hqe⟩
          rw [show ps.foldl (fun s q => if id = q.1 then q.2 else s) p.2
                = statusAfter id p.2 ps from rfl, hnm]
          exact hall p (List.mem_cons_self p ps) h
      · rw [if_neg h]
        obtain ⟨q, hq, hqe⟩ := hex
        rcases List.mem_cons.mp hq with hq1 | hq2
        · exact absurd (hq1 ▸ hqe) h
        · exact ih st ⟨q, hq2, hqe⟩ (fun r hr => hall r (List.mem_cons_of_mem p hr))

lemma processChangedTask_eq_map (allTasks store : List Task) (ct : Task) :
    processChangedTask allTasks store ct
      = store.map (fun t => (changedPairs allTasks ct).foldl applyStatusUpd t) := by
  cases h : ct.status
  case DOING =>
    simp only [processChangedTask, changedPairs, h]
    rw [updateTaskStatusInList_eq_map]
    rfl
  case REVISE =>
    simp only [processChangedTask, changedPairs, h]
    exact foldl_tasks_update (fun d => (d.id, TaskStatus.BLOCKED)) _ _
  all_goals
    simp only [processChangedTask, changedPairs, h]
    simp

lemma foldl_processChanged_eq_map (changedTasks allTasks store : List Task) :
    changedTasks.foldl (processChangedTask allTasks) store
      = store.map (fun t => ((changedTasks.map (changedPairs allTasks)).flatten).foldl applyStatusUpd t) := by
  induction changedTasks generalizing store with
  | nil => simp
  | cons c cs ih =>
      simp only [List.foldl_cons, ih, processChangedTask_eq_map, List.map_map, List.map_cons,
        List.flatten_cons]
      apply List.map_congr_left
      intro t _
      simp [List.foldl_append]

lemma hierarchyExecute_eq_map (changedTasks allTasks : List Task) :
    hierarchyExecute changedTasks allTasks
      = allTasks.map (fun t => (hierarchyPairs changedTasks allTasks).foldl applyStatusUpd t) := by
  unfold hierarchyExecute hierarchyPairs
  rw [foldl_tasks_update (fun t => (t.id, TaskStatus.DOING)), foldl_processChanged_eq_map,
    List.map_map]
  apply List.map_congr_left
  intro t _
  simp [List.foldl_append]

lemma isEmpty_or_all {l : List Task} {p : Task → Bool} : (l.isEmpty || l.all p) = l.all p := by
  cases l <;> simp

/-- Claim C5 (confirmed). Under the hierarchical strategy, a task of the list
is selected by getReadyTasks if and only if its status is TODO and every task
of the list referenced in its dependsOn list has status DONE; in particular a
task with an empty or absent dependsOn list is ready whenever it is TODO. -/
theorem c5_ready_iff (allTasks : List Task) (task : Task) (hmem : task ∈ allTasks) :
    task ∈ getReadyTasks allTasks ↔
      (task.status = TaskStatus.TODO ∧
        ∀ dep ∈ allTasks, dep.id ∈ task.dependsOn.getD [] → dep.status = TaskStatus.DONE) := by
  simp only [getReadyTasks, List.mem_filter, hmem, true_and]
  cases hd : task.dependsOn with
  | none =>
      simp [hierarchyReadyPred, getTaskDependencies, hd]
  | some ds =>
      cases hds : ds.isEmpty
      case true =>
        have : ds = [] := List.isEmpty_iff.mp hds
        simp [hierarchyReadyPred, getTaskDependencies, hd, this]
      case false =>
        simp only [hierarchyReadyPred, getTaskDependencies, hd, hds, if_neg Bool.false_ne_true,
          Option.getD_some, isEmpty_or_all, Bool.and_eq_true, beq_iff_eq, List.all_eq_true,
          List.mem_filter]
        constructor
        · rintro ⟨h1, h2⟩
          exact ⟨h1, fun dep hdep hin => h2 dep ⟨hdep, List.elem_iff.mpr hin⟩⟩
        · rintro ⟨h1, h2⟩
          refine ⟨h1, fun dep hdep => ?_⟩
          obtain ⟨hmem2, hin⟩ := hdep
          exact h2 dep hmem2 (List.elem_iff.mp hin)

/-- Witness for C5 at a concrete two-task scenario. -/
theorem c5_ready_iff_witness : c5B ∈ getReadyTasks [c5A, c5B] := by
  have h := c5_ready_iff [c5A, c5B] c5B (by simp)
  exact h.mpr (by decide)

/-- Claim C1 counterexample. In the chain A ← B ← C, task C transitively
depends on the revised task A, yet after the hierarchical strategy processes
the REVISE change only the direct dependent B is BLOCKED: the resulting task
with id "C" is still DONE, not BLOCKED. -/
theorem c1_counterexample :
    DependsTransitivelyOn c1Tasks c1C c1A ∧
      ∃ t ∈ hierarchyExecute [c1A] c1Tasks, t.id = "C" ∧ t.status ≠ TaskStatus.BLOCKED := by
  constructor
  · exact .step (List.mem_cons_of_mem _ (List.mem_cons_self _ _)) (by decide)
      (.direct (by decide))
  · decide

/-- Claim C1 amended. On REVISE of task T, the hierarchical strategy updates
exactly the tasks whose own dependsOn list contains T.id — the DIRECT
dependents — to BLOCKED: after the tick, every task directly depending on T
has status BLOCKED (transitive dependents further away are not touched, as
the counterexample shows). -/
theorem c1_direct_dependents_blocked (allTasks : List Task) (T : Task)
    (hnd : (allTasks.map Task.id).Nodup) (hmem : T ∈ allTasks)
    (hst : T.status = TaskStatus.REVISE) :
    ∀ t ∈ hierarchyExecute [T] allTasks,
      (t.dependsOn.getD []).contains T.id = true → t.status = TaskStatus.BLOCKED := by
  intro r hr hdep
  rw [hierarchyExecute_eq_map] at hr
  obtain ⟨t0, ht0, rfl⟩ := List.mem_map.mp hr
  rw [foldl_applyStatusUpd_eq] at hdep ⊢
  have hdep0 : (t0.dependsOn.getD []).contains T.id = true := hdep
  show statusAfter t0.id t0.status (hierarchyPairs [T] allTasks) = TaskStatus.BLOCKED
  have hpairs : hierarchyPairs [T] allTasks
      = (getAllTasksDependingOn T allTasks).map (fun d => (d.id, TaskStatus.BLOCKED))
        ++ (hierarchyExecutable allTasks).map (fun t => (t.id, TaskStatus.DOING)) := by
    simp [hierarchyPairs, changedPairs, hst]
  -- t0 is a direct dependent of T
  have ht0dep : t0 ∈ getAllTasksDependingOn T allTasks := by
    refine List.mem_filter.mpr ⟨ht0, ?_⟩
    cases hd : t0.dependsOn with
    | none => rw [hd] at hdep0; simp at hdep0
    | some ds => rw [hd] at hdep0; simpa using hdep0
  -- T itself is among t0's resolved dependencies, so t0 is not executable
  have hTdeps : T ∈ getTaskDependencies t0 allTasks := by
    cases hd : t0.dependsOn with
    | none => rw [hd] at hdep0; simp at hdep0
    | some ds =>
        rw [hd] at hdep0
        have hin : T.id ∈ ds := by simpa using hdep0
        have hne : ds.isEmpty = false := by
          cases ds with
          | nil => simp at hin
          | cons a l => rfl
        simp only [getTaskDependencies, hd, hne, if_neg Bool.false_ne_true]
        exact List.mem_filter.mpr ⟨hmem, List.elem_iff.mpr hin⟩
  have ht0notReady : hierarchyReadyPred allTasks t0 = false := by
    unfold hierarchyReadyPred
    cases hTodo : (t0.status == TaskStatus.TODO)
    · rfl
    · rw [Bool.true_and, isEmpty_or_all]
      refine List.all_eq_false.mpr ⟨T, hTdeps, ?_⟩
      simp [hst]
  rw [hpairs, statusAfter_append]
  have h1 : statusAfter t0.id t0.status
      ((getAllTasksDependingOn T allTasks).map fun d => (d.id, TaskStatus.BLOCKED))
        = TaskStatus.BLOCKED := by
    apply statusAfter_const_match
    · exact ⟨(t0.id, TaskStatus.BLOCKED), List.mem_map.mpr ⟨t0, ht0dep, rfl⟩, rfl⟩
    · intro p hp _
      obtain ⟨d, _, rfl⟩ := List.mem_map.mp hp
      rfl
  rw [h1]
  apply statusAfter_no_match
  intro p hp
  obtain ⟨e, he, rfl⟩ := List.mem_map.mp hp
  intro heq
  obtain ⟨heMem, hePred⟩ := List.mem_filter.mp he
  have het0 : e = t0 := List.inj_on_of_nodup_map hnd heMem ht0 heq.symm
  rw [het0, ht0notReady] at hePred
  exact Bool.false_ne_true hePred

/-- Witness for C1 amended: in the chain scenario, the direct dependent B of
the revised task A ends up BLOCKED. -/
theorem c1_direct_dependents_blocked_witness :
    ({ c1B with status := TaskStatus.BLOCKED } : Task).status = TaskStatus.BLOCKED :=
  c1_direct_dependents_blocked c1Tasks c1A (by decide) (by decide) (by decide)
    { c1B with status := TaskStatus.BLOCKED } (by decide) (by decide)

/-- Claim C2 counterexample. With the default maxConcurrency of 5, a single
hierarchical tick over one DONE root and six dependent TODO tasks leaves six
tasks in status DOING: the dispatch is not bounded by maxConcurrency minus
the number of in-flight tasks. -/
theorem c2_counterexample :
    ¬ ((hierarchyExecute [c2Root] c2Tasks).countP (fun t => t.status == TaskStatus.DOING)
        ≤ defaultMaxConcurrency) := by
  decide

/-- Claim C2 amended. A hierarchical dispatch tick starts EVERY executable
task, with no bound from maxConcurrency: after the tick, every stored task
whose id matches an executable task has status DOING, however many there are.
The number of DOING tasks is therefore bounded only by the task count. -/
theorem c2_all_executable_dispatched (changedTasks allTasks : List Task) :
    ∀ t ∈ allTasks, hierarchyReadyPred allTasks t = true →
      ∀ r ∈ hierarchyExecute changedTasks allTasks, r.id = t.id →
        r.status = TaskStatus.DOING := by
  intro t ht hready r hr hid
  rw [hierarchyExecute_eq_map] at hr
  obtain ⟨t0, _, rfl⟩ := List.mem_map.mp hr
  rw [foldl_applyStatusUpd_eq] at hid ⊢
  have hid0 : t0.id = t.id := hid
  show statusAfter t0.id t0.status (hierarchyPairs changedTasks allTasks) = TaskStatus.DOING
  unfold hierarchyPairs
  rw [statusAfter_append]
  apply statusAfter_const_match
  · exact ⟨(t.id, TaskStatus.DOING),
      List.mem_map.mpr ⟨t, List.mem_filter.mpr ⟨ht, hready⟩, rfl⟩, hid0⟩
  · intro p hp _
    obtain ⟨e, _, rfl⟩ := List.mem_map.mp hp
    rfl

/-- Witness for C2 amended: in the six-follower scenario, the stored task
with the id of the executable task T1 is DOING after the tick. -/
theorem c2_all_executable_dispatched_witness :
    ({ c2Follower "T1" with status := TaskStatus.DOING } : Task).status = TaskStatus.DOING :=
  c2_all_executable_dispatched [c2Root] c2Tasks (c2Follower "T1") (by decide) (by decide)
    { c2Follower "T1" with status := TaskStatus.DOING } (by decide) (by decide)

lemma processSeqChangedTask_revise_eq_map (allTasks store : List Task) (ct : Task)
    (h : ct.status = TaskStatus.REVISE) :
    processSeqChangedTask allTasks store ct
      = store.map (fun t => (seqRevisePairs allTasks ct).foldl applyStatusUpd t) := by
  simp only [processSeqChangedTask, h]
  rw [foldl_tasks_update (fun t => (t.id, TaskStatus.TODO)), updateTaskStatusInList_eq_map,
    List.map_map]
  apply List.map_congr_left
  intro t _
  simp only [Function.comp_apply, seqRevisePairs, List.foldl_append, List.foldl_cons,
    List.foldl_nil]

lemma findIndexOpt_some_get? {α : Type} (p : α → Bool) :
    ∀ (l : List α) (i : Nat), findIndexOpt p l = some i →
      ∃ a, l.get? i = some a ∧ p a = true := by
  intro l
  induction l with
  | nil => intro i h; simp [findIndexOpt] at h
  | cons a l ih =>
      intro i h
      simp only [findIndexOpt] at h
      by_cases hp : p a
      · rw [if_pos hp] at h
        obtain rfl : i = 0 := (Option.some_inj.mp h).symm
        exact ⟨a, rfl, hp⟩
      · rw [if_neg hp] at h
        obtain ⟨j, hj, rfl⟩ := Option.map_eq_some'.mp h
        obtain ⟨b, hb, hpb⟩ := ih j hj
        exact ⟨b, by simpa using hb, hpb⟩

lemma id_get?_inj {allTasks : List Task} {j k : Nat} {t d : Task}
    (hnd : (allTasks.map Task.id).Nodup)
    (hj : allTasks.get? j = some t) (hk : allTasks.get? k = some d)
    (hid : t.id = d.id) : j = k := by
  have hjl : j < (allTasks.map Task.id).length := by
    rw [List.length_map]
    exact List.get?_eq_some.mp hj |>.1
  apply List.get?_inj hjl hnd
  rw [List.get?_map, List.get?_map, hj, hk, Option.map_some', Option.map_some', hid]

/-- Claim C6 (confirmed). Under the sequential strategy, when the task at
index i of the task list (with unique ids) transitions to REVISE, processing
the change leaves every task before index i untouched, sets the task at
index i itself to DOING, and resets every task after index i to TODO. -/
theorem c6_sequential_revise (allTasks : List Task) (changedTask : Task) (i : Nat)
    (hnd : (allTasks.map Task.id).Nodup)
    (hrev : changedTask.status = TaskStatus.REVISE)
    (hfind : findIndexOpt (fun t => t.id == changedTask.id) allTasks = some i) :
    (∀ j, j < i → (sequentialExecute [changedTask] allTasks allTasks).get? j
        = allTasks.get? j) ∧
    ((sequentialExecute [changedTask] allTasks allTasks).get? i
        = (allTasks.get? i).map (fun t => { t with status := TaskStatus.DOING })) ∧
    (∀ j, i < j → (sequentialExecute [changedTask] allTasks allTasks).get? j
        = (allTasks.get? j).map (fun t => { t with status := TaskStatus.TODO })) := by
  have hbridge : sequentialExecute [changedTask] allTasks allTasks
      = allTasks.map (fun t => (seqRevisePairs allTasks changedTask).foldl applyStatusUpd t) := by
    show processSeqChangedTask allTasks allTasks changedTask = _
    exact processSeqChangedTask_revise_eq_map _ _ _ hrev
  obtain ⟨ti, hti, htip⟩ := findIndexOpt_some_get? _ allTasks i hfind
  have htid : ti.id = changedTask.id := by simpa using htip
  have htail : seqTail allTasks changedTask = allTasks.drop (i + 1) := by
    simp [seqTail, hfind]
  have hnotail : ∀ j (t : Task), j ≤ i → allTasks.get? j = some t →
      ∀ p ∈ (allTasks.drop (i + 1)).map (fun d => (d.id, TaskStatus.TODO)), t.id ≠ p.1 := by
    intro j t hji hj p hp heq
    obtain ⟨d, hd, rfl⟩ := List.mem_map.mp hp
    obtain ⟨m, hm⟩ := List.mem_iff_get?.mp hd
    rw [List.get?_drop] at hm
    have := id_get?_inj hnd hj hm heq
    omega
  refine ⟨?_, ?_, ?_⟩
  · intro j hji
    rw [hbridge, List.get?_map]
    cases hj : allTasks.get? j with
    | none => rfl
    | some t =>
        rw [Option.map_some', foldl_applyStatusUpd_eq]
        have h1 : statusAfter t.id t.status (seqRevisePairs allTasks changedTask)
            = t.status := by
          unfold seqRevisePairs
          rw [htail, statusAfter_append,
            statusAfter_no_match _ _ _ (hnotail j t (Nat.le_of_lt hji) hj)]
          apply statusAfter_no_match
          intro p hp
          rw [List.mem_singleton] at hp
          subst hp
          intro heq
          have hid : t.id = ti.id := heq.trans htid.symm
          have := id_get?_inj hnd hj hti hid
          omega
        rw [h1]
  · rw [hbridge, List.get?_map, hti, Option.map_some', Option.map_some',
      foldl_applyStatusUpd_eq]
    have h1 : statusAfter ti.id ti.status (seqRevisePairs allTasks changedTask)
        = TaskStatus.DOING := by
      unfold seqRevisePairs
      rw [htail, statusAfter_append,
        statusAfter_no_match _ _ _ (hnotail i ti le_rfl hti)]
      apply statusAfter_const_match
      · exact ⟨(changedTask.id, TaskStatus.DOING), List.mem_singleton.mpr rfl, htid⟩
      · intro p hp _
        rw [List.mem_singleton] at hp
        rw [hp]
    rw [h1]
  · intro j hij
    rw [hbridge, List.get?_map]
    cases hj : allTasks.get? j with
    | none => rfl
    | some t =>
        rw [Option.map_some', Option.map_some', foldl_applyStatusUpd_eq]
        have h1 : statusAfter t.id t.status (seqRevisePairs allTasks changedTask)
            = TaskStatus.TODO := by
          unfold seqRevisePairs
          rw [htail, statusAfter_append]
          have h2 : statusAfter t.id t.status
              ((allTasks.drop (i + 1)).map fun d => (d.id, TaskStatus.TODO))
                = TaskStatus.TODO := by
            apply statusAfter_const_match
            · refine ⟨(t.id, TaskStatus.TODO), List.mem_map.mpr ⟨t, ?_, rfl⟩, rfl⟩
              refine List.mem_iff_get?.mpr ⟨j - (i + 1), ?_⟩
              rw [List.get?_drop]
              have hji : i + 1 + (j - (i + 1)) = j := by omega
              rw [hji]
              exact hj
            · intro p hp _
              obtain ⟨d, _, rfl⟩ := List.mem_map.mp hp
              rfl
          rw [h2]
          apply statusAfter_no_match
          intro p hp
          rw [List.mem_singleton] at hp
          subst hp
          intro heq
          have hid : t.id = ti.id := heq.trans htid.symm
          have := id_get?_inj hnd hj hti hid
          omega
        rw [h1]

/-- Witness for C6 at the three-task scenario: the task after the revised one
is reset to TODO, the revised one is DOING, the one before keeps its status. -/
theorem c6_sequential_revise_witness :
    (sequentialExecute [c6B] c6Tasks c6Tasks).get? 0 = c6Tasks.get? 0 ∧
    (sequentialExecute [c6B] c6Tasks c6Tasks).get? 1
      = (c6Tasks.get? 1).map (fun t => { t with status := TaskStatus.DOING }) ∧
    (sequentialExecute [c6B] c6Tasks c6Tasks).get? 2
      = (c6Tasks.get? 2).map (fun t => { t with status := TaskStatus.TODO }) := by
  have h := c6_sequential_revise c6Tasks c6B 1 (by decide) (by decide) (by decide)
  exact ⟨h.1 0 (by decide), h.2.1, h.2.2 2 (by decide)⟩

/-- Claim C3 counterexample. updateTaskStatus (and likewise
updateStatusOfMultipleTasks) appends NO log entry for the transition: on a
store with an empty log list, the log list is still empty after the update,
not one entry longer as the claim states. -/
theorem c3_counterexample :
    ¬ ((updateTaskStatus c3State "A" TaskStatus.DOING).workflowLogs.length
          = c3State.workflowLogs.length + 1
        ∧ (updateStatusOfMultipleTasks c3State ["A"] TaskStatus.DOING).workflowLogs.length
          = c3State.workflowLogs.length + 1) := by
  decide

/-- Claim C3 amended. updateTaskStatus(id, status) performs a single atomic
update that sets exactly the matching task's status, and
updateStatusOfMultipleTasks(ids, status) does the same for every listed id;
tasks whose id is not given keep their value, and all other store fields —
including workflowLogs, to which NO entry is appended — are unchanged. -/
theorem c3_update_status_no_log (state : TeamState) (taskId : String)
    (taskIds : List String) (status : TaskStatus) :
    ((∀ j t, state.tasks.get? j = some t → t.id ≠ taskId →
        (updateTaskStatus state taskId status).tasks.get? j = some t) ∧
      (∀ j t, state.tasks.get? j = some t → t.id = taskId →
        (updateTaskStatus state taskId status).tasks.get? j
          = some { t with status := status }) ∧
      (updateTaskStatus state taskId status).workflowLogs = state.workflowLogs ∧
      (updateTaskStatus state taskId status).teamWorkflowStatus = state.teamWorkflowStatus ∧
      (updateTaskStatus state taskId status).agents = state.agents ∧
      (updateTaskStatus state taskId status).workflowResult = state.workflowResult ∧
      (updateTaskStatus state taskId status).inputs = state.inputs ∧
      (updateTaskStatus state taskId status).env = state.env) ∧
    ((∀ j t, state.tasks.get? j = some t → taskIds.contains t.id = false →
        (updateStatusOfMultipleTasks state taskIds status).tasks.get? j = some t) ∧
      (∀ j t, state.tasks.get? j = some t → taskIds.contains t.id = true →
        (updateStatusOfMultipleTasks state taskIds status).tasks.get? j
          = some { t with status := status }) ∧
      (updateStatusOfMultipleTasks state taskIds status).workflowLogs = state.workflowLogs ∧
      (updateStatusOfMultipleTasks state taskIds status).teamWorkflowStatus
        = state.teamWorkflowStatus ∧
      (updateStatusOfMultipleTasks state taskIds status).agents = state.agents ∧
      (updateStatusOfMultipleTasks state taskIds status).workflowResult
        = state.workflowResult ∧
      (updateStatusOfMultipleTasks state taskIds status).inputs = state.inputs ∧
      (updateStatusOfMultipleTasks state taskIds status).env = state.env) := by
  refine ⟨⟨?_, ?_, rfl, rfl, rfl, rfl, rfl, rfl⟩, ⟨?_, ?_, rfl, rfl, rfl, rfl, rfl, rfl⟩⟩
  · intro j t hj hne
    show (updateTaskStatusInList state.tasks taskId status).get? j = some t
    rw [updateTaskStatusInList, List.get?_map, hj, Option.map_some']
    simp [hne]
  · intro j t hj heq
    show (updateTaskStatusInList state.tasks taskId status).get? j
      = some { t with status := status }
    rw [updateTaskStatusInList, List.get?_map, hj, Option.map_some']
    simp [heq]
  · intro j t hj hne
    show (state.tasks.map fun task =>
        if taskIds.contains task.id then { task with status := status } else task).get? j
      = some t
    rw [List.get?_map, hj, Option.map_some']
    simp only [hne]
    simp
  · intro j t hj heq
    show (state.tasks.map fun task =>
        if taskIds.contains task.id then { task with status := status } else task).get? j
      = some { t with status := status }
    rw [List.get?_map, hj, Option.map_some']
    simp only [heq]
    simp

/-- Witness for C3 amended at the one-task store. -/
theorem c3_update_status_no_log_witness :
    (updateTaskStatus c3State "A" TaskStatus.DOING).tasks.get? 0
      = some { mkTask "A" "extract" none TaskStatus.TODO with status := TaskStatus.DOING } ∧
    (updateTaskStatus c3State "A" TaskStatus.DOING).workflowLogs = c3State.workflowLogs := by
  have h := c3_update_status_no_log c3State "A" ["A"] TaskStatus.DOING
  exact ⟨h.1.2.1 0 (mkTask "A" "extract" none TaskStatus.TODO) rfl rfl, h.1.2.2.1⟩

/-- Claim C4 counterexample. startWorkflow has no ALREADY_RUNNING guard: on a
store whose teamWorkflowStatus is RUNNING, a second call does not fail and
does not leave the state unchanged — it resets the tasks and replaces the log
list with a fresh RUNNING entry. -/
theorem c4_counterexample :
    c4State.teamWorkflowStatus = WorkflowStatus.RUNNING ∧
      startWorkflow c4State none 99 ≠ c4State := by
  refine ⟨rfl, ?_⟩
  decide

/-- Claim C4 amended. startWorkflow never fails and is not guarded: for every
store state — RUNNING included — it resets the state (all tasks TODO, result
cleared, logs wiped), appends exactly one fresh RUNNING WorkflowStatusUpdate
log, and marks the workflow RUNNING, starting execution anew. -/
theorem c4_start_always_restarts (state : TeamState) (inputs : Option Env) (now : Nat) :
    (startWorkflow state inputs now).teamWorkflowStatus = WorkflowStatus.RUNNING ∧
    (startWorkflow state inputs now).workflowLogs.length = 1 ∧
    (∀ log ∈ (startWorkflow state inputs now).workflowLogs,
        log.workflowStatus = some WorkflowStatus.RUNNING
          ∧ log.logType = LogType.WorkflowStatusUpdate
          ∧ log.timestamp = .val now) ∧
    (∀ t ∈ (startWorkflow state inputs now).tasks, t.status = TaskStatus.TODO) ∧
    (startWorkflow state inputs now).workflowResult = none := by
  cases inputs <;>
    simp +contextual [startWorkflow, resetWorkflowState]

/-- Claim C7 (confirmed). validateTask succeeds only when the task exists and
its status is AWAITING_VALIDATION; then it sets that task's status to
VALIDATED, appends the workflow log and the task log, marks the workflow
RUNNING, and invokes handleTaskCompleted — the same completion handling DONE
uses — with the validated task. When the task is missing or in any other
status, the call returns null and the store state is unchanged. -/
theorem c7_validate_task (state : TeamState) (taskId : String) (now : Nat) :
    (state.tasks.find? (fun t => t.id == taskId) = none →
      validateTask state taskId now = (state, none)) ∧
    (∀ task, state.tasks.find? (fun t => t.id == taskId) = some task →
      task.status ≠ TaskStatus.AWAITING_VALIDATION →
      validateTask state taskId now = (state, none)) ∧
    (∀ task, state.tasks.find? (fun t => t.id == taskId) = some task →
      task.status = TaskStatus.AWAITING_VALIDATION →
      (validateTask state taskId now).2 = some { task with status := TaskStatus.VALIDATED } ∧
      (validateTask state taskId now).1.teamWorkflowStatus = WorkflowStatus.RUNNING ∧
      (validateTask state taskId now).1.workflowLogs
        = state.workflowLogs
            ++ [validatedWorkflowLog { task with status := TaskStatus.VALIDATED } now,
                validatedTaskLog { task with status := TaskStatus.VALIDATED } now] ∧
      (∀ j t, state.tasks.get? j = some t → t.id ≠ taskId →
        (validateTask state taskId now).1.tasks.get? j = some t) ∧
      (∀ j t, state.tasks.get? j = some t → t.id = taskId →
        (validateTask state taskId now).1.tasks.get? j
          = some { task with status := TaskStatus.VALIDATED })) := by
  refine ⟨?_, ?_, ?_⟩
  · intro hnone
    simp [validateTask, hnone]
  · intro task hfind hne
    have hbeq : (task.status == TaskStatus.AWAITING_VALIDATION) = false := by
      simpa using hne
    simp [validateTask, hfind, hbeq]
  · intro task hfind heq
    have hbeq : (task.status == TaskStatus.AWAITING_VALIDATION) = true := by
      simpa using heq
    refine ⟨?_, ?_, ?_, ?_, ?_⟩
    · simp [validateTask, hfind, hbeq]
    · simp [validateTask, hfind, hbeq]
    · simp [validateTask, hfind, hbeq]
    · intro j t hj hne
      simp only [validateTask, hfind, hbeq, if_pos]
      rw [List.get?_map, hj, Option.map_some']
      simp [hne]
    · intro j t hj hteq
      simp only [validateTask, hfind, hbeq, if_pos]
      rw [List.get?_map, hj, Option.map_some']
      simp [hteq]

/-- Witness for C7 at the one-task AWAITING_VALIDATION store and at a missing
task id. -/
theorem c7_validate_task_witness :
    (validateTask c7State "A" 7).2 = some { c7Task with status := TaskStatus.VALIDATED } ∧
    (validateTask c7State "A" 7).1.teamWorkflowStatus = WorkflowStatus.RUNNING ∧
    validateTask c7State "missing" 7 = (c7State, none) := by
  have h := c7_validate_task c7State "A" 7
  have h2 := c7_validate_task c7State "missing" 7
  have hsucc := h.2.2 c7Task rfl rfl
  exact ⟨hsucc.1, hsucc.2.1, h2.1 (by decide)⟩

/-- Claim C10 (confirmed). provideFeedback with a task id matching no task in
the store returns without mutating anything: the resulting state is the input
state — no feedback appended, no log appended, no status or workflow status
change. -/
theorem c10_feedback_unknown_id (state : TeamState) (taskId content : String) (now : Nat)
    (h : ∀ t ∈ state.tasks, t.id ≠ taskId) :
    provideFeedback state taskId content now = state := by
  have hfind : state.tasks.find? (fun t => t.id == taskId) = none := by
    rw [List.find?_eq_none]
    intro t ht
    simpa using h t ht
  simp [provideFeedback, hfind]

/-- Witness for C10 at a store whose only task id is "A". -/
theorem c10_feedback_unknown_id_witness :
    provideFeedback c10State "B" "redo it" 5 = c10State :=
  c10_feedback_unknown_id c10State "B" "redo it" 5 (by decide)

lemma agentClean_cleanAgent (a : Agent) : AgentClean (cleanAgent a) := by
  refine ⟨rfl, rfl, ?_, ?_⟩
  · intro cfg hcfg
    cases h : a.llmConfig with
    | none => simp [cleanAgent, cleanLLMConfig, h] at hcfg
    | some c =>
        simp only [cleanAgent, cleanLLMConfig, h, Option.mem_def, Option.some_inj] at hcfg
        rw [← hcfg]
  · intro inst hinst
    cases h : a.agentInstance with
    | none => simp [cleanAgent, cleanAgentInstance, h] at hinst
    | some i =>
        simp only [cleanAgent, cleanAgentInstance, h, Option.mem_def, Option.some_inj] at hinst
        subst hinst
        refine ⟨rfl, rfl, ?_⟩
        intro cfg hcfg
        cases h2 : i.llmConfig with
        | none => simp [cleanLLMConfig, h2] at hcfg
        | some c =>
            simp only [cleanLLMConfig, h2, Option.mem_def, Option.some_inj] at hcfg
            rw [← hcfg]

lemma taskClean_cleanTask (t : Task) : TaskClean (cleanTask t) := by
  refine ⟨rfl, rfl, rfl, rfl, ?_, ?_⟩
  · intro f hf
    simp only [cleanTask, List.mem_map] at hf
    obtain ⟨f0, _, rfl⟩ := hf
    rfl
  · intro a ha
    cases h : t.agent with
    | none => simp [cleanTask, h] at ha
    | some a0 =>
        simp only [cleanTask, h, Option.map_some', Option.mem_def, Option.some_inj] at ha
        subst ha
        exact agentClean_cleanAgent a0

lemma logClean_cleanLog (log : WorkflowLog) : LogClean (cleanLog log) := by
  refine ⟨rfl, rfl, rfl, rfl, ?_, ?_, ?_⟩
  · intro f hf
    cases h : log.metadata.feedback with
    | none => simp [cleanLog, cleanMetadata, h] at hf
    | some f0 =>
        simp only [cleanLog, cleanMetadata, h, Option.mem_def, Option.some_inj] at hf
        subst hf
        rfl
  · intro a ha
    cases h : log.agent with
    | none => simp [cleanLog, h] at ha
    | some a0 =>
        simp only [cleanLog, h, Option.map_some', Option.mem_def, Option.some_inj] at ha
        subst ha
        exact agentClean_cleanAgent a0
  · intro t ht
    cases h : log.task with
    | none => simp [cleanLog, h] at ht
    | some t0 =>
        simp only [cleanLog, h, Option.map_some', Option.mem_def, Option.some_inj] at ht
        subst ht
        exact taskClean_cleanTask t0

/-- Claim C9 (confirmed). In the snapshot getCleanedState returns — whose
type carries exactly the fields teamWorkflowStatus, workflowResult, name,
agents, tasks, workflowLogs, inputs, workflowContext, logLevel — every agent
(top-level, nested in a task, or nested in a log) has its id, env and
llmConfig.apiKey redacted to the sentinel "[REDACTED]", every task has its id
and its duration / startTime / endTime and feedback timestamps redacted, and
every log has its timestamp and its metadata's time-dependent fields
redacted; the non-redacted top-level fields are copied from the store. -/
theorem c9_cleaned_state (state : TeamState) :
    (∀ a ∈ (getCleanedState state).agents, AgentClean a) ∧
    (∀ t ∈ (getCleanedState state).tasks, TaskClean t) ∧
    (∀ log ∈ (getCleanedState state).workflowLogs, LogClean log) ∧
    (getCleanedState state).teamWorkflowStatus = state.teamWorkflowStatus ∧
    (getCleanedState state).workflowResult = state.workflowResult ∧
    (getCleanedState state).name = state.name ∧
    (getCleanedState state).inputs = state.inputs ∧
    (getCleanedState state).workflowContext = state.workflowContext ∧
    (getCleanedState state).logLevel = state.logLevel := by
  refine ⟨?_, ?_, ?_, rfl, rfl, rfl, rfl, rfl, rfl⟩
  · intro a ha
    obtain ⟨a0, _, rfl⟩ := List.mem_map.mp ha
    exact agentClean_cleanAgent a0
  · intro t ht
    obtain ⟨t0, _, rfl⟩ := List.mem_map.mp ht
    exact taskClean_cleanTask t0
  · intro log hlog
    obtain ⟨log0, _, rfl⟩ := List.mem_map.mp hlog
    exact logClean_cleanLog log0

lemma collectStep_none {tasks : List Task} {ci : Nat} {acc : List (String × ContextEntry)}
    {log : WorkflowLog} (hq : qualEntry tasks ci log = none) :
    collectStep tasks ci acc log = acc := by
  simp [collectStep, hq]

lemma collectStep_some {tasks : List Task} {ci : Nat} {acc : List (String × ContextEntry)}
    {log : WorkflowLog} {ke : String × ContextEntry}
    (hq : qualEntry tasks ci log = some ke) :
    collectStep tasks ci acc log = upsertEntry acc ke.1 ke.2 := by
  simp [collectStep, hq]

lemma lookupKey_upsert_self (m : List (String × ContextEntry)) (k : String) (e : ContextEntry) :
    lookupKey (upsertEntry m k e) k = some e := by
  induction m with
  | nil => simp [upsertEntry, lookupKey]
  | cons kv m ih =>
      unfold upsertEntry
      by_cases h : (kv.1 == k) = true
      · rw [if_pos h]
        unfold lookupKey
        rw [List.find?_cons_of_pos (p := fun kv : String × ContextEntry => kv.1 == k) _ (by simp)]
        rfl
      · rw [if_neg h]
        unfold lookupKey
        rw [List.find?_cons_of_neg (p := fun kv : String × ContextEntry => kv.1 == k) _ h]
        exact ih

lemma lookupKey_upsert_of_ne (m : List (String × ContextEntry)) (k k2 : String)
    (e : ContextEntry) (h : k2 ≠ k) :
    lookupKey (upsertEntry m k e) k2 = lookupKey m k2 := by
  have hke : ((k : String) == k2) = false := beq_eq_false_iff_ne.mpr (Ne.symm h)
  induction m with
  | nil =>
      unfold upsertEntry lookupKey
      rw [List.find?_cons_of_neg (p := fun kv : String × ContextEntry => kv.1 == k2) _ (by simp [hke])]
  | cons kv m ih =>
      unfold upsertEntry
      by_cases hk : (kv.1 == k) = true
      · have hkv : kv.1 = k := by simpa using hk
        rw [if_pos hk]
        unfold lookupKey
        rw [List.find?_cons_of_neg (p := fun kv : String × ContextEntry => kv.1 == k2) _ (by simp [hke]),
          List.find?_cons_of_neg (p := fun kv : String × ContextEntry => kv.1 == k2) _ (by simp [hkv, hke])]
      · rw [if_neg hk]
        unfold lookupKey
        by_cases h2 : (kv.1 == k2) = true
        · rw [List.find?_cons_of_pos (p := fun kv : String × ContextEntry => kv.1 == k2) _ h2,
            List.find?_cons_of_pos (p := fun kv : String × ContextEntry => kv.1 == k2) _ h2]
        · rw [List.find?_cons_of_neg (p := fun kv : String × ContextEntry => kv.1 == k2) _ h2,
            List.find?_cons_of_neg (p := fun kv : String × ContextEntry => kv.1 == k2) _ h2]
          exact ih

lemma mem_upsert (m : List (String × ContextEntry)) (k : String) (e : ContextEntry)
    (x : String × ContextEntry) :
    x ∈ upsertEntry m k e → x ∈ m ∨ x = (k, e) := by
  induction m with
  | nil => intro hx; right; simpa [upsertEntry] using hx
  | cons kv m ih =>
      unfold upsertEntry
      by_cases h : (kv.1 == k) = true
      · rw [if_pos h]
        intro hx
        rcases List.mem_cons.mp hx with h1 | h2
        · right; exact h1
        · left; exact List.mem_cons_of_mem kv h2
      · rw [if_neg h]
        intro hx
        rcases List.mem_cons.mp hx with h1 | h2
        · left; exact h1 ▸ List.mem_cons_self kv m
        · rcases ih h2 with h3 | h4
          · left; exact List.mem_cons_of_mem kv h3
          · right; exact h4

lemma mem_upsert_keys (m : List (String × ContextEntry)) (k : String) (e : ContextEntry)
    (x : String) :
    x ∈ (upsertEntry m k e).map Prod.fst → x ∈ m.map Prod.fst ∨ x = k := by
  intro hx
  obtain ⟨kv, hkv, rfl⟩ := List.mem_map.mp hx
  rcases mem_upsert m k e kv hkv with h1 | h2
  · left; exact List.mem_map.mpr ⟨kv, h1, rfl⟩
  · right; rw [h2]

lemma upsert_keys_nodup (m : List (String × ContextEntry)) (k : String) (e : ContextEntry)
    (h : (m.map Prod.fst).Nodup) : ((upsertEntry m k e).map Prod.fst).Nodup := by
  induction m with
  | nil => simp [upsertEntry]
  | cons kv m ih =>
      rw [List.map_cons] at h
      obtain ⟨hnotin, hnd⟩ := List.nodup_cons.mp h
      unfold upsertEntry
      by_cases hk : (kv.1 == k) = true
      · have hkv : kv.1 = k := by simpa using hk
        rw [if_pos hk, List.map_cons]
        exact List.nodup_cons.mpr ⟨by rw [← hkv]; exact hnotin, hnd⟩
      · have hkv : kv.1 ≠ k := by simpa using hk
        rw [if_neg hk, List.map_cons]
        refine List.nodup_cons.mpr ⟨?_, ih hnd⟩
        intro hmem
        rcases mem_upsert_keys m k e kv.1 hmem with h1 | h2
        · exact hnotin h1
        · exact hkv h2

lemma mem_of_lookupKey_eq_some (m : List (String × ContextEntry)) (k : String)
    (e : ContextEntry) (h : lookupKey m k = some e) : (k, e) ∈ m := by
  unfold lookupKey at h
  obtain ⟨kv, hfind, hsnd⟩ := Option.map_eq_some'.mp h
  have hmem := List.mem_of_find?_eq_some hfind
  have hpred := List.find?_some hfind
  have hfst : kv.1 = k := by simpa using hpred
  have : kv = (k, e) := Prod.ext hfst hsnd
  exact this ▸ hmem

lemma lookupKey_eq_some_of_mem (m : List (String × ContextEntry))
    (hnd : (m.map Prod.fst).Nodup) (k : String) (e : ContextEntry) (h : (k, e) ∈ m) :
    lookupKey m k = some e := by
  induction m with
  | nil => simp at h
  | cons kv m ih =>
      rw [List.map_cons] at hnd
      obtain ⟨hnotin, hnd2⟩ := List.nodup_cons.mp hnd
      rcases List.mem_cons.mp h with h1 | h2
      · unfold lookupKey
        rw [← h1]
        rw [List.find?_cons_of_pos (p := fun kv : String × ContextEntry => kv.1 == k) _ (by simp)]
        rfl
      · have hne : (kv.1 == k) = false := by
          refine beq_eq_false_iff_ne.mpr ?_
          intro heq
          exact hnotin (heq ▸ List.mem_map.mpr ⟨(k, e), h2, rfl⟩)
        unfold lookupKey
        rw [List.find?_cons_of_neg (p := fun kv : String × ContextEntry => kv.1 == k) _ (by simp [hne])]
        exact ih hnd2 h2

lemma findIndexOpt_eq_none_iff {α : Type} (p : α → Bool) (l : List α) :
    findIndexOpt p l = none ↔ ∀ a ∈ l, p a = false := by
  induction l with
  | nil => simp [findIndexOpt]
  | cons a l ih =>
      unfold findIndexOpt
      by_cases h : p a = true
      · simp [h]
      · have hfa : p a = false := Bool.not_eq_true _ ▸ h
        simp only [hfa, Bool.false_eq_true, if_false, Option.map_eq_none', List.mem_cons]
        constructor
        · intro hnone b hb
          rcases hb with rfl | hb2
          · exact hfa
          · exact ih.mp hnone b hb2
        · intro hall
          exact ih.mpr fun b hb => hall b (Or.inr hb)

lemma findIndexOpt_of_get?_nodup {tasks : List Task} {i : Nat} {t : Task}
    (hnd : (tasks.map Task.id).Nodup) (ht : tasks.get? i = some t) :
    findIndexOpt (fun x => x.id == t.id) tasks = some i := by
  cases hf : findIndexOpt (fun x => x.id == t.id) tasks with
  | none =>
      exfalso
      have := (findIndexOpt_eq_none_iff _ _).mp hf t (List.get?_mem ht)
      simp at this
  | some j =>
      obtain ⟨u, hu, hup⟩ := findIndexOpt_some_get? _ tasks j hf
      have huid : u.id = t.id := by simpa using hup
      rw [id_get?_inj hnd hu ht huid]

lemma mem_collect_foldl (tasks : List Task) (ci : Nat) (logs : List WorkflowLog)
    (x : String × ContextEntry) :
    ∀ acc, x ∈ logs.foldl (collectStep tasks ci) acc →
      x ∈ acc ∨ ∃ log ∈ logs, qualEntry tasks ci log = some x := by
  induction logs with
  | nil => intro acc h; left; exact h
  | cons log logs ih =>
      intro acc h
      simp only [List.foldl_cons] at h
      cases hq : qualEntry tasks ci log with
      | none =>
          rw [collectStep_none hq] at h
          rcases ih _ h with h1 | h2
          · left; exact h1
          · right
            obtain ⟨l2, hl2, hq2⟩ := h2
            exact ⟨l2, List.mem_cons_of_mem _ hl2, hq2⟩
      | some ke =>
          rw [collectStep_some hq] at h
          rcases ih _ h with h1 | h2
          · rcases mem_upsert _ _ _ _ h1 with h3 | h4
            · left; exact h3
            · right; exact ⟨log, List.mem_cons_self _ _, by rw [hq, h4]⟩
          · right
            obtain ⟨l2, hl2, hq2⟩ := h2
            exact ⟨l2, List.mem_cons_of_mem _ hl2, hq2⟩

lemma mem_collect (tasks : List Task) (ci : Nat) (logs : List WorkflowLog)
    (x : String × ContextEntry) (hx : x ∈ collectTaskResults tasks ci logs) :
    ∃ log ∈ logs, qualEntry tasks ci log = some x := by
  rcases mem_collect_foldl tasks ci logs x [] hx with h1 | h2
  · simp at h1
  · exact h2

lemma collect_keys_nodup_foldl (tasks : List Task) (ci : Nat) (logs : List WorkflowLog) :
    ∀ acc, (acc.map Prod.fst).Nodup →
      ((logs.foldl (collectStep tasks ci) acc).map Prod.fst).Nodup := by
  induction logs with
  | nil => intro acc h; exact h
  | cons log logs ih =>
      intro acc hacc
      simp only [List.foldl_cons]
      cases hq : qualEntry tasks ci log with
      | none =>
          rw [collectStep_none hq]
          exact ih _ hacc
      | some ke =>
          rw [collectStep_some hq]
          exact ih _ (upsert_keys_nodup _ _ _ hacc)

lemma collect_keys_nodup (tasks : List Task) (ci : Nat) (logs : List WorkflowLog) :
    ((collectTaskResults tasks ci logs).map Prod.fst).Nodup :=
  collect_keys_nodup_foldl tasks ci logs [] (by simp)

lemma lookupKey_foldl_logs (tasks : List Task) (ci : Nat) (k : String)
    (logs : List WorkflowLog) :
    ∀ (acc : List (String × ContextEntry)),
      lookupKey (logs.foldl (collectStep tasks ci) acc) k
        = (match ((logs.filterMap (qualEntry tasks ci)).filter
              (fun ke => ke.1 == k)).getLast? with
           | some ke => some ke.2
           | none => lookupKey acc k) := by
  induction logs with
  | nil => intro acc; simp
  | cons log logs ih =>
      intro acc
      cases hq : qualEntry tasks ci log with
      | none =>
          simp only [List.foldl_cons, List.filterMap_cons, hq, collectStep_none hq]
          exact ih acc
      | some ke =>
          simp only [List.foldl_cons, List.filterMap_cons, hq, collectStep_some hq]
          by_cases hke : (ke.1 == k) = true
          · rw [List.filter_cons_of_pos (p := fun x : String × ContextEntry => x.1 == k) hke,
              ih (upsertEntry acc ke.1 ke.2)]
            cases hrest : ((logs.filterMap (qualEntry tasks ci)).filter
                (fun ke => ke.1 == k)) with
            | nil =>
                show lookupKey (upsertEntry acc ke.1 ke.2) k = some ke.2
                have hkk : ke.1 = k := by simpa using hke
                rw [← hkk]
                exact lookupKey_upsert_self acc ke.1 ke.2
            | cons b l2 =>
                rw [List.getLast?_cons_cons]
                cases hlast : (b :: l2).getLast? with
                | some c => rfl
                | none => simp at hlast
          · rw [List.filter_cons_of_neg (p := fun x : String × ContextEntry => x.1 == k) hke,
              ih (upsertEntry acc ke.1 ke.2)]
            cases hrest2 : ((logs.filterMap (qualEntry tasks ci)).filter
                (fun ke => ke.1 == k)).getLast? with
            | some b => rfl
            | none =>
                have hne : k ≠ ke.1 := fun heq => hke (by simp [heq])
                exact lookupKey_upsert_of_ne acc ke.1 k ke.2 hne

lemma lookupKey_collect (tasks : List Task) (ci : Nat) (k : String)
    (logs : List WorkflowLog) :
    lookupKey (collectTaskResults tasks ci logs) k
      = Option.map Prod.snd
          (((logs.filterMap (qualEntry tasks ci)).filter (fun ke => ke.1 == k)).getLast?) := by
  rw [collectTaskResults, lookupKey_foldl_logs]
  cases ((logs.filterMap (qualEntry tasks ci)).filter (fun ke => ke.1 == k)).getLast? with
  | none => rfl
  | some ke => rfl

lemma qualEntry_some_props {tasks : List Task} {ci : Nat} {log : WorkflowLog}
    {k : String} {e : ContextEntry} (h : qualEntry tasks ci log = some (k, e)) :
    doneLogMatches k log = true ∧
      findIndexOpt (fun t => t.id == k) tasks = some e.index ∧ e.index < ci ∧
      e.taskDescription = logTaskDescription log ∧ e.result = log.metadata.result := by
  unfold qualEntry at h
  split at h
  case isTrue hc =>
    split at h
    case h_1 lt htask =>
      split at h
      case h_1 ti hidx =>
        split at h
        case isTrue hlt =>
          have hpair := Option.some_inj.mp h
          have hk : lt.id = k := congrArg Prod.fst hpair
          have he : e = { taskDescription := lt.description
                          result := log.metadata.result
                          index := ti } := (congrArg Prod.snd hpair).symm
          refine ⟨?_, ?_, ?_, ?_, ?_⟩
          · unfold doneLogMatches
            rw [htask, Bool.and_eq_true]
            exact ⟨hc, by simp [hk]⟩
          · rw [he, ← hk]
            exact hidx
          · rw [he]
            exact hlt
          · rw [he]
            unfold logTaskDescription
            rw [htask]
          · rw [he]
        case isFalse hlt => exact absurd h (by simp)
      case h_2 hidx => exact absurd h (by simp)
    case h_2 htask => exact absurd h (by simp)
  case isFalse hc => exact absurd h (by simp)

lemma qualEntry_of_doneLogMatches {tasks : List Task} {ci : Nat} {log : WorkflowLog}
    {k : String} {ti : Nat} (hd : doneLogMatches k log = true)
    (hti : findIndexOpt (fun t => t.id == k) tasks = some ti) (hlt : ti < ci) :
    qualEntry tasks ci log
      = some (k, { taskDescription := logTaskDescription log
                   result := log.metadata.result
                   index := ti }) := by
  unfold doneLogMatches at hd
  rw [Bool.and_eq_true] at hd
  obtain ⟨h12, htm⟩ := hd
  cases htask : log.task with
  | none =>
      rw [htask] at htm
      simp at htm
  | some lt =>
      rw [htask] at htm
      have hk : lt.id = k := by simpa using htm
      simp only [qualEntry, h12, if_true, htask, hk, hti]
      rw [if_pos hlt]
      simp [logTaskDescription, htask]

lemma filterMap_qual_keySlice (tasks : List Task) (ci : Nat) (k : String) (ti : Nat)
    (hti : findIndexOpt (fun t => t.id == k) tasks = some ti) (hlt : ti < ci) :
    ∀ logs : List WorkflowLog,
      (logs.filterMap (qualEntry tasks ci)).filter (fun ke => ke.1 == k)
        = (logs.filter (doneLogMatches k)).map
            (fun log => (k, { taskDescription := logTaskDescription log
                              result := log.metadata.result
                              index := ti })) := by
  intro logs
  induction logs with
  | nil => rfl
  | cons log logs ih =>
      by_cases hd : doneLogMatches k log = true
      · rw [List.filter_cons_of_pos hd, List.map_cons, List.filterMap_cons,
          qualEntry_of_doneLogMatches hd hti hlt]
        rw [List.filter_cons_of_pos (p := fun x : String × ContextEntry => x.1 == k)
          (by simp), ih]
      · rw [List.filter_cons_of_neg hd, List.filterMap_cons]
        cases hq : qualEntry tasks ci log with
        | none => exact ih
        | some ke =>
            have hprops := qualEntry_some_props
              (show qualEntry tasks ci log = some (ke.1, ke.2) from hq)
            have hne : (ke.1 == k) = false := by
              refine beq_eq_false_iff_ne.mpr ?_
              intro heq
              exact hd (heq ▸ hprops.1)
            rw [List.filter_cons_of_neg (p := fun x : String × ContextEntry => x.1 == k)
              (by simp [hne])]
            exact ih

lemma specEntryAt_index {tasks : List Task} {logs : List WorkflowLog} {i : Nat}
    {e : ContextEntry} (h : specEntryAt tasks logs i = some e) : e.index = i := by
  unfold specEntryAt at h
  split at h
  case h_1 => exact absurd h (by simp)
  case h_2 t hget =>
    obtain ⟨log, _, he⟩ := Option.map_eq_some'.mp h
    rw [← he]

lemma specEntryAt_some_get? {tasks : List Task} {logs : List WorkflowLog} {i : Nat}
    {e : ContextEntry} (h : specEntryAt tasks logs i = some e) :
    ∃ t, tasks.get? i = some t := by
  unfold specEntryAt at h
  split at h
  case h_1 => exact absurd h (by simp)
  case h_2 t hget => exact ⟨t, hget⟩

lemma lookupKey_collect_eq_specEntryAt {tasks : List Task} {ci : Nat}
    {logs : List WorkflowLog} {k : String} {ti : Nat} {t : Task}
    (hti : findIndexOpt (fun x => x.id == k) tasks = some ti) (hlt : ti < ci)
    (ht : tasks.get? ti = some t) (htid : t.id = k) :
    lookupKey (collectTaskResults tasks ci logs) k = specEntryAt tasks logs ti := by
  rw [lookupKey_collect, filterMap_qual_keySlice tasks ci k ti hti hlt logs,
    List.getLast?_map, Option.map_map]
  simp only [specEntryAt, ht, htid]
  rfl

lemma mem_values_imp_spec {tasks : List Task} {ci : Nat} {logs : List WorkflowLog}
    {e : ContextEntry}
    (he : e ∈ (collectTaskResults tasks ci logs).map Prod.snd) :
    ∃ i ∈ List.range ci, specEntryAt tasks logs i = some e := by
  obtain ⟨kv, hkv, rfl⟩ := List.mem_map.mp he
  obtain ⟨log, _, hqs⟩ := mem_collect _ _ _ _ hkv
  obtain ⟨_, hti, hlt, _, _⟩ :=
    qualEntry_some_props (show _ = some (kv.1, kv.2) from hqs)
  obtain ⟨t, ht, htp⟩ := findIndexOpt_some_get? _ tasks kv.2.index hti
  have htid : t.id = kv.1 := by simpa using htp
  have hlook : lookupKey (collectTaskResults tasks ci logs) kv.1 = some kv.2 :=
    lookupKey_eq_some_of_mem _ (collect_keys_nodup tasks ci logs) kv.1 kv.2 hkv
  rw [lookupKey_collect_eq_specEntryAt hti hlt ht htid] at hlook
  exact ⟨kv.2.index, List.mem_range.mpr hlt, hlook⟩

lemma spec_imp_mem_values {tasks : List Task} {ci : Nat} {logs : List WorkflowLog}
    {e : ContextEntry} (hnd : (tasks.map Task.id).Nodup)
    (h : ∃ i ∈ List.range ci, specEntryAt tasks logs i = some e) :
    e ∈ (collectTaskResults tasks ci logs).map Prod.snd := by
  obtain ⟨i, hi, hse⟩ := h
  have hlt : i < ci := List.mem_range.mp hi
  obtain ⟨t, hget⟩ := specEntryAt_some_get? hse
  have hti := findIndexOpt_of_get?_nodup hnd hget
  have hlook := @lookupKey_collect_eq_specEntryAt tasks ci logs t.id i t hti hlt hget rfl
  rw [hse] at hlook
  have hmem := mem_of_lookupKey_eq_some _ _ _ hlook
  exact List.mem_map.mpr ⟨(t.id, e), hmem, rfl⟩

lemma collect_values_index_nodup {tasks : List Task} {ci : Nat} {logs : List WorkflowLog} :
    ((collectTaskResults tasks ci logs).map Prod.snd).Pairwise
      (fun a b => a.index ≠ b.index) := by
  have hkeys := collect_keys_nodup tasks ci logs
  have hpair : (collectTaskResults tasks ci logs).Pairwise (fun x y => x.1 ≠ y.1) :=
    List.pairwise_map.mp hkeys
  refine List.pairwise_map.mpr ?_
  refine List.Pairwise.imp_of_mem ?_ hpair
  intro x y hx hy hne hidx_eq
  obtain ⟨lx, _, hqx⟩ := mem_collect _ _ _ _ hx
  obtain ⟨ly, _, hqy⟩ := mem_collect _ _ _ _ hy
  obtain ⟨_, hix, _, _, _⟩ := qualEntry_some_props (show _ = some (x.1, x.2) from hqx)
  obtain ⟨_, hiy, _, _, _⟩ := qualEntry_some_props (show _ = some (y.1, y.2) from hqy)
  obtain ⟨tx, htx, htpx⟩ := findIndexOpt_some_get? _ tasks _ hix
  obtain ⟨ty, hty, htpy⟩ := findIndexOpt_some_get? _ tasks _ hiy
  rw [hidx_eq] at htx
  rw [htx] at hty
  obtain rfl : tx = ty := Option.some_inj.mp hty
  have h1 : tx.id = x.1 := by simpa using htpx
  have h2 : tx.id = y.1 := by simpa using htpy
  exact hne (h1 ▸ h2)

lemma spec_entries_pairwise {tasks : List Task} {logs : List WorkflowLog} {ci : Nat} :
    ((List.range ci).filterMap (specEntryAt tasks logs)).Pairwise
      (fun a b => a.index < b.index) := by
  rw [List.pairwise_filterMap]
  refine List.Pairwise.imp ?_ (List.pairwise_lt_range ci)
  intro i j hij e he e2 he2
  rw [specEntryAt_index (Option.mem_def.mp he), specEntryAt_index (Option.mem_def.mp he2)]
  exact hij

lemma sorted_values_eq_spec {tasks : List Task} {ci : Nat} {logs : List WorkflowLog}
    (hnd : (tasks.map Task.id).Nodup) :
    sortByIndex ((collectTaskResults tasks ci logs).map Prod.snd)
      = (List.range ci).filterMap (specEntryAt tasks logs) := by
  have hA_idx : ((collectTaskResults tasks ci logs).map Prod.snd).Pairwise
      (fun a b => a.index ≠ b.index) := collect_values_index_nodup
  have hA_nodup : ((collectTaskResults tasks ci logs).map Prod.snd).Nodup :=
    hA_idx.imp (fun h heq => h (congrArg ContextEntry.index heq))
  have hB_pair : ((List.range ci).filterMap (specEntryAt tasks logs)).Pairwise
      (fun a b => a.index < b.index) := spec_entries_pairwise
  have hB_nodup : ((List.range ci).filterMap (specEntryAt tasks logs)).Nodup :=
    hB_pair.imp (fun h heq => absurd (heq ▸ h) (Nat.lt_irrefl _))
  have hmem : ∀ e, e ∈ (collectTaskResults tasks ci logs).map Prod.snd
      ↔ e ∈ (List.range ci).filterMap (specEntryAt tasks logs) := by
    intro e
    constructor
    · intro he
      exact List.mem_filterMap.mpr (mem_values_imp_spec he)
    · intro he
      exact spec_imp_mem_values hnd (List.mem_filterMap.mp he)
  have hperm : ((collectTaskResults tasks ci logs).map Prod.snd).Perm
      ((List.range ci).filterMap (specEntryAt tasks logs)) :=
    (List.perm_ext_iff_of_nodup hA_nodup hB_nodup).mpr hmem
  have hsp : (sortByIndex ((collectTaskResults tasks ci logs).map Prod.snd)).Perm
      ((collectTaskResults tasks ci logs).map Prod.snd) :=
    List.perm_insertionSort _ _
  have hsorted : (sortByIndex ((collectTaskResults tasks ci logs).map Prod.snd)).Pairwise
      (fun a b => a.index ≤ b.index) :=
    List.sorted_insertionSort _ _
  have hAidxnodup : (((collectTaskResults tasks ci logs).map Prod.snd).map
      ContextEntry.index).Nodup := List.pairwise_map.mpr hA_idx
  have hsA_idx : ((sortByIndex ((collectTaskResults tasks ci logs).map Prod.snd)).map
      ContextEntry.index).Nodup :=
    List.Perm.nodup ((hsp.map ContextEntry.index).symm) hAidxnodup
  have hs_strict : (sortByIndex ((collectTaskResults tasks ci logs).map Prod.snd)).Pairwise
      (fun a b => a.index < b.index) := by
    have h2 : (sortByIndex ((collectTaskResults tasks ci logs).map Prod.snd)).Pairwise
        (fun a b => a.index ≠ b.index) := List.pairwise_map.mp hsA_idx
    exact (hsorted.and h2).imp (fun h => lt_of_le_of_ne h.1 h.2)
  haveI : IsAntisymm ContextEntry (fun a b => a.index < b.index) :=
    ⟨fun a b h1 h2 => absurd h2 (Nat.lt_asymm h1)⟩
  exact List.eq_of_perm_of_sorted (hsp.trans hperm) hs_strict hB_pair

/-- Claim C8 amended. For every log list and every current task id present in
the task list (with unique ids), the derived context consists of one entry
"Task: {description}\nResult: {result}\n" per task that reached DONE in the
logs and precedes the current task in declaration order, using the most
recent DONE log of each task; the entries are JOINED WITH A NEWLINE
SEPARATOR, not plainly concatenated; object results are serialized as JSON;
tasks at or after the current task, and tasks never DONE, contribute
nothing. -/
theorem c8_context_joined (state : TeamState) (logs : List WorkflowLog)
    (currentTaskId : String) (hnd : (state.tasks.map Task.id).Nodup) :
    deriveContextFromLogs state logs currentTaskId
      = specContextForTask state logs currentTaskId := by
  unfold deriveContextFromLogs specContextForTask
  cases hf : findIndexOpt (fun t => t.id == currentTaskId) state.tasks with
  | none => rfl
  | some ci =>
      exact congrArg (fun l => String.intercalate "\n" (l.map entryLine))
        (sorted_values_eq_spec hnd)

/-- Claim C8 counterexample. With two DONE prior tasks, the derived context
is the two entries joined with a newline separator, so it differs from the
plain concatenation of the entries that the claim states. -/
theorem c8_counterexample :
    deriveContextFromLogs c8State c8Logs "C"
        = "Task: alpha\nResult: ra\n\nTask: beta\nResult: rb\n" ∧
      deriveContextFromLogs c8State c8Logs "C"
        ≠ "Task: alpha\nResult: ra\n" ++ "Task: beta\nResult: rb\n" := by
  constructor
  · decide
  · decide

/-- Witness for C8 amended at the concrete two-entry scenario. -/
theorem c8_context_joined_witness :
    deriveContextFromLogs c8State c8Logs "C" = specContextForTask c8State c8Logs "C" :=
  c8_context_joined c8State c8Logs "C" (by decide)

end KaibanJS
